import Mathlib

/-!
Verification of the ShowTailsOCR text pipeline (src/ocr.js).

The pipeline's pure core (preClean, segmentRabbits, parseSection,
normalizeDate, renderReadable, renderTSV, runOCR's control flow) is embedded
over `List Char`.  JavaScript regular expressions are embedded by a small
backtracking matcher (`matchRE`) over a regex AST (`RE`); every pattern of
the source is transcribed into that AST.  The matcher follows the JS
semantics used by the source: leftmost match, ordered alternation, greedy
and lazy quantifiers with full backtracking, `^`/`$` anchored at the ends of
the whole input (no multiline flag is used in the source), word boundaries,
and positive lookahead.  Every quantifier in the source applies to a single
character class, which the AST mirrors (`RE.rep` quantifies a class), so the
matcher is structurally terminating.
-/

/-- ASCII approximation of the JS whitespace class used by the source
(space, tab, line feed, carriage return, vertical tab, form feed). -/
def isWS (c : Char) : Bool :=
  c == ' ' || c == '\t' || c == '\n' || c == '\r' || c == '\x0b' || c == '\x0c'

/-- JS word character, as used by the word-boundary assertion. -/
def isWordChar (c : Char) : Bool :=
  ('a' ≤ c && c ≤ 'z') || ('A' ≤ c && c ≤ 'Z') || ('0' ≤ c && c ≤ '9') || c == '_'

def isWordOpt : Option Char → Bool
  | none => false
  | some c => isWordChar c

/-- Decimal digit. -/
def digitCh (c : Char) : Bool := '0' ≤ c && c ≤ '9'

/-- Case-insensitive single-character test (for patterns with the `i` flag). -/
def charCI (p : Char) (c : Char) : Bool :=
  c == Char.toLower p || c == Char.toUpper p

/-- JS `String.prototype.trim` over `List Char`. -/
def jsTrim (s : List Char) : List Char :=
  ((s.dropWhile isWS).reverse.dropWhile isWS).reverse

/-- Convert a Lean string literal to the `List Char` the embedding works on. -/
def chs (s : String) : List Char := s.data

/-- Regex AST.  Quantifiers (`rep`) range over a single character class,
matching every quantified subpattern of the source. -/
inductive RE where
  | eps : RE
  | cls (p : Char → Bool) : RE
  | seq (a b : RE) : RE
  | alt (a b : RE) : RE
  | rep (p : Char → Bool) (lo : Nat) (hi : Option Nat) (lazy : Bool) : RE
  | group (i : Nat) (a : RE) : RE
  | look (a : RE) : RE
  | bol : RE
  | eol : RE
  | wb : RE

/-- Matcher state: the remaining input and the character just before it
(`none` exactly at the start of the input). -/
structure MState where
  rest : List Char
  prev : Option Char
deriving DecidableEq

/-- Capture slots for groups 1..3 (the source uses at most three). -/
structure Caps where
  g1 : Option (List Char) := none
  g2 : Option (List Char) := none
  g3 : Option (List Char) := none
deriving DecidableEq

def Caps.set (i : Nat) (v : List Char) (c : Caps) : Caps :=
  match i with
  | 1 => { c with g1 := some v }
  | 2 => { c with g2 := some v }
  | 3 => { c with g3 := some v }
  | _ => c

/-- Explicit ordered choice on `Option` (first success wins). -/
def oalt : Option α → Option α → Option α
  | some a, _ => some a
  | none, b => b

/-- Backtracking matcher for a quantified character class.  `lo`/`hi` bound
the number of repetitions (`hi = none` is unbounded); greedy tries longer
matches first, lazy shorter first. -/
def repM (p : Char → Bool) (k : MState → Caps → Option (MState × Caps)) :
    Nat → Option Nat → Bool → List Char → Option Char → Caps →
    Option (MState × Caps)
  | lo, hi, lz, rest, prev, caps =>
    let done : Option (MState × Caps) :=
      if lo = 0 then k ⟨rest, prev⟩ caps else none
    match rest with
    | [] => done
    | c :: cs =>
      if hi = some 0 then done
      else if p c then
        let more := repM p k (lo - 1) (hi.map (· - 1)) lz cs (some c) caps
        if lz then oalt done more else oalt more done
      else done

/-- CPS backtracking matcher.  `matchRE re k st caps` tries to match `re` at
state `st` and runs the continuation `k` on every candidate end state, in
the order a JS engine would try them. -/
def matchRE : RE → (MState → Caps → Option (MState × Caps)) →
    MState → Caps → Option (MState × Caps)
  | .eps, k, st, caps => k st caps
  | .cls p, k, st, caps =>
    match st.rest with
    | [] => none
    | c :: cs => if p c then k ⟨cs, some c⟩ caps else none
  | .seq a b, k, st, caps => matchRE a (fun st' c' => matchRE b k st' c') st caps
  | .alt a b, k, st, caps => oalt (matchRE a k st caps) (matchRE b k st caps)
  | .rep p lo hi lz, k, st, caps => repM p k lo hi lz st.rest st.prev caps
  | .group i a, k, st, caps =>
    matchRE a
      (fun st' c' =>
        k st' (c'.set i (st.rest.take (st.rest.length - st'.rest.length))))
      st caps
  | .look a, k, st, caps =>
    match matchRE a (fun s c => some (s, c)) st caps with
    | some _ => k st caps
    | none => none
  | .bol, k, st, caps => if st.prev = none then k st caps else none
  | .eol, k, st, caps => if st.rest = [] then k st caps else none
  | .wb, k, st, caps =>
    if isWordOpt st.prev != isWordOpt st.rest.head? then k st caps else none

/-- Attempt a match exactly at state `st` (captures start out empty, as at
each JS match attempt). -/
def matchFrom (re : RE) (st : MState) : Option (MState × Caps) :=
  matchRE re (fun s c => some (s, c)) st {}

/-- Scan left to right for the first state where `re` matches; returns the
start state, the end state and the captures. -/
def searchAux (re : RE) : List Char → Option Char → Option (MState × MState × Caps)
  | [], prev =>
    match matchFrom re ⟨[], prev⟩ with
    | some (e, caps) => some (⟨[], prev⟩, e, caps)
    | none => none
  | c :: cs, prev =>
    match matchFrom re ⟨c :: cs, prev⟩ with
    | some (e, caps) => some (⟨c :: cs, prev⟩, e, caps)
    | none => searchAux re cs (some c)

/-- JS `s.match(re)` / `re.exec(s)` position search. -/
def jsSearch (re : RE) (s : List Char) : Option (MState × MState × Caps) :=
  searchAux re s none

/-- JS `re.test(s)`. -/
def jsTest (re : RE) (s : List Char) : Bool := (jsSearch re s).isSome

/-- The text consumed between a start state and an end state. -/
def consumedTxt (st e : MState) : List Char :=
  st.rest.take (st.rest.length - e.rest.length)

/-- A capture value that JS `||` treats as truthy: present and non-empty. -/
def truthyCap : Option (List Char) → Option (List Char)
  | some (a :: as') => some (a :: as')
  | _ => none

/-- The source's `grab`: `(m[2] || m[1] || '').toString().trim()` with a
failed match giving `''`.  An absent or empty group 2 falls back to group 1
(JS `||` treats the empty string and `undefined` as falsy). -/
def jsGrab (re : RE) (s : List Char) : List Char :=
  match jsSearch re s with
  | none => []
  | some (_, _, caps) =>
    jsTrim ((truthyCap caps.g2).getD ((truthyCap caps.g1).getD []))

/-- Global replace: walks the input left to right, replacing every match by
the template applied to the captures and the matched text, and resuming
right after it (JS `String.prototype.replace` with the `g` flag).  The fuel
argument only forces structural termination: every iteration consumes at
least one input character, so `length + 1` fuel never runs out. -/
def replGo (re : RE) (tmpl : Caps → List Char → List Char) :
    Nat → List Char → Option Char → List Char
  | 0, rest, _ => rest
  | fuel + 1, rest, prev =>
    match matchFrom re ⟨rest, prev⟩ with
    | some (e, caps) =>
      if e.rest.length < rest.length then
        tmpl caps (consumedTxt ⟨rest, prev⟩ e) ++ replGo re tmpl fuel e.rest e.prev
      else
        match rest with
        | [] => []
        | c :: cs => c :: replGo re tmpl fuel cs (some c)
    | none =>
      match rest with
      | [] => []
      | c :: cs => c :: replGo re tmpl fuel cs (some c)

def jsReplaceAll (re : RE) (tmpl : Caps → List Char → List Char)
    (s : List Char) : List Char :=
  replGo re tmpl (s.length + 1) s none

/-- Non-global replace: only the first match is replaced (JS
`String.prototype.replace` without the `g` flag). -/
def jsReplaceFirst (re : RE) (tmpl : Caps → List Char → List Char)
    (s : List Char) : List Char :=
  match jsSearch re s with
  | none => s
  | some (st, e, caps) =>
    s.take (s.length - st.rest.length) ++ tmpl caps (consumedTxt st e) ++ e.rest

/-- JS `String.prototype.split` with a regex separator (no capture groups in
the source's separator).  Fuel as in `replGo`. -/
def splitGo (re : RE) : Nat → List Char → Option Char → List Char →
    List (List Char)
  | 0, rest, _, acc => [acc.reverse ++ rest]
  | fuel + 1, rest, prev, acc =>
    match matchFrom re ⟨rest, prev⟩ with
    | some (e, _) =>
      if e.rest.length < rest.length then
        acc.reverse :: splitGo re fuel e.rest e.prev []
      else
        match rest with
        | [] => [acc.reverse]
        | c :: cs => splitGo re fuel cs (some c) (acc.cons c)
    | none =>
      match rest with
      | [] => [acc.reverse]
      | c :: cs => splitGo re fuel cs (some c) (acc.cons c)

def jsSplit (re : RE) (s : List Char) : List (List Char) :=
  splitGo re (s.length + 1) s none []

/-- Literal character. -/
def lit (c : Char) : RE := .cls (fun x => x == c)

/-- Literal character under the `i` flag. -/
def liti (c : Char) : RE := .cls (charCI c)

def catRE (l : List RE) : RE := l.foldr .seq .eps

/-- Case-sensitive literal string. -/
def strCS (s : String) : RE := catRE (s.data.map lit)

/-- Case-insensitive literal string. -/
def strCI (s : String) : RE := catRE (s.data.map liti)

/-- Constant replacement template. -/
def constT (r : String) : Caps → List Char → List Char := fun _ _ => r.data

/-- The class `[\.\s#:]`. -/
def dotWsHashColon (c : Char) : Bool := c == '.' || isWS c || c == '#' || c == ':'

/-- The class `[\s#:]`. -/
def wsHashColon (c : Char) : Bool := isWS c || c == '#' || c == ':'

/-- The class `[:\s]` (also `[\s:]`). -/
def wsColon (c : Char) : Bool := isWS c || c == ':'

/-- The class `[0-9OIl\-\/\.]` under the `i` flag. -/
def bornCls (c : Char) : Bool :=
  digitCh c || c == 'O' || c == 'o' || c == 'I' || c == 'i' || c == 'l' ||
    c == 'L' || c == '-' || c == '/' || c == '.'

/-- The class `[il1]` under the `i` flag. -/
def il1 (c : Char) : Bool :=
  c == 'i' || c == 'I' || c == 'l' || c == 'L' || c == '1'

/-- ASCII letter. -/
def alphaCh (c : Char) : Bool := ('A' ≤ c && c ≤ 'Z') || ('a' ≤ c && c ≤ 'z')

/-- The name-shaped class `[A-Za-z0-9'&\-\s]`. -/
def nameCls (c : Char) : Bool :=
  alphaCh c || digitCh c || c == '\'' || c == '&' || c == '-' || isWS c

/-- The identifier class `[A-Z0-9\-]` under the `i` flag. -/
def idCls (c : Char) : Bool := alphaCh c || digitCh c || c == '-'

/-- The variety value class `[A-Za-z\s\(\)\/\-]`. -/
def varCls (c : Char) : Bool :=
  alphaCh c || isWS c || c == '(' || c == ')' || c == '/' || c == '-'

/-! ### preClean (src/ocr.js lines 42-62): one `RE` per replacement rule -/

/-- `/\r/g` -> `'\n'` -/
def crRe : RE := lit '\r'

/-- `/\n{2,}/g` -> `'\n'` -/
def multiNLRe : RE := .rep (fun c => c == '\n') 2 none false

/-- `/[ \t]{2,}/g` -> `' '` -/
def multiSpRe : RE := .rep (fun c => c == ' ' || c == '\t') 2 none false

/-- `/ariety/gi` -> `'Variety'` -/
def arietyRe : RE := strCI "ariety"

/-- `/We[il1]?ght/gi` -> `'Weight'` -/
def weightFixRe : RE :=
  catRE [liti 'W', liti 'e', .rep il1 0 (some 1) false, liti 'g', liti 'h', liti 't']

/-- `/Leg[s5]/gi` -> `'Legs'` -/
def legsFixRe : RE :=
  catRE [liti 'L', liti 'e', liti 'g',
    .cls (fun c => c == 's' || c == 'S' || c == '5')]

/-- `/\bRe[gq][\.\s#:]*` + `/gi` -> `'Reg # '` -/
def regFixRe : RE :=
  catRE [.wb, liti 'R', liti 'e',
    .cls (fun c => c == 'g' || c == 'G' || c == 'q' || c == 'Q'),
    .rep dotWsHashColon 0 none false]

/-- `/\b[Gg][Cc][\.\s#:]*` + `/g` -> `'GC # '` -/
def gcFixRe : RE :=
  catRE [.wb, .cls (fun c => c == 'G' || c == 'g'),
    .cls (fun c => c == 'C' || c == 'c'), .rep dotWsHashColon 0 none false]

/-- `/[Ee]ar[\s#:]*` + `/g` -> `'Ear # '` -/
def earFixRe : RE :=
  catRE [.cls (fun c => c == 'E' || c == 'e'), lit 'a', lit 'r',
    .rep wsHashColon 0 none false]

/-- `/\bBorn[\s:]*([0-9OIl\-\/\.]+)/gi` -> `'Born: $1'` -/
def bornFixRe : RE :=
  catRE [.wb, strCI "Born", .rep wsColon 0 none false,
    .group 1 (.rep bornCls 1 none false)]

/-- `/([0-9])\s*[il1]b\b/gi` -> `'$1 lb'` -/
def lbFixRe : RE :=
  catRE [.group 1 (.cls digitCh), .rep isWS 0 none false, .cls il1, liti 'b', .wb]

/-- `/\b([0-9])\s*[o0]z\b/gi` -> `'$1 oz'` -/
def ozFixRe : RE :=
  catRE [.wb, .group 1 (.cls digitCh), .rep isWS 0 none false,
    .cls (fun c => c == 'o' || c == 'O' || c == '0'), liti 'z', .wb]

/-- `/[|]/g` -> `' '` -/
def pipeRe : RE := lit '|'

def g1T (pre post : String) : Caps → List Char → List Char :=
  fun c _ => pre.data ++ c.g1.getD [] ++ post.data

/-- `preClean` (src/ocr.js lines 42-62), rule for rule, in source order. -/
def preClean (s : List Char) : List Char :=
  let s := jsReplaceAll crRe (constT "\n") s
  let s := jsReplaceAll multiNLRe (constT "\n") s
  let s := jsReplaceAll multiSpRe (constT " ") s
  let s := jsReplaceAll arietyRe (constT "Variety") s
  let s := jsReplaceAll weightFixRe (constT "Weight") s
  let s := jsReplaceAll legsFixRe (constT "Legs") s
  let s := jsReplaceAll regFixRe (constT "Reg # ") s
  let s := jsReplaceAll gcFixRe (constT "GC # ") s
  let s := jsReplaceAll earFixRe (constT "Ear # ") s
  let s := jsReplaceAll bornFixRe (g1T "Born: " "") s
  let s := jsReplaceAll lbFixRe (g1T "" " lb") s
  let s := jsReplaceAll ozFixRe (g1T "" " oz") s
  let s := jsReplaceAll pipeRe (constT " ") s
  jsTrim s

/-! ### segmentRabbits (src/ocr.js lines 64-91) -/

structure RBlock where
  role : List Char
  block : List Char
deriving DecidableEq

/-- The alternation `(Name|Sire|Dam)` under the `i` flag. -/
def kwAlt : RE := .alt (strCI "Name") (.alt (strCI "Sire") (strCI "Dam"))

/-- `/\b(Name|Sire|Dam)\b\s*:?/gi`, replaced by `'\n=== $1 ===\n'`. -/
def markerRe : RE :=
  catRE [.wb, .group 1 kwAlt, .wb, .rep isWS 0 none false,
    .rep (fun c => c == ':') 0 (some 1) false]

def markerT : Caps → List Char → List Char :=
  fun c _ => (chs "\n=== ") ++ c.g1.getD [] ++ (chs " ===\n")

/-- The split separator `/\n===\s*/`. -/
def splitMarkRe : RE :=
  catRE [lit '\n', lit '=', lit '=', lit '=', .rep isWS 0 none false]

/-- `/^((Name|Sire|Dam))\s*===?\s*/i`. -/
def roleRe : RE :=
  catRE [.bol, .group 1 (.group 2 kwAlt), .rep isWS 0 none false,
    lit '=', lit '=', .rep (fun c => c == '=') 0 (some 1) false,
    .rep isWS 0 none false]

/-- `/^Name[:\s]/i`. -/
def nameStartRe : RE := catRE [.bol, strCI "Name", .cls wsColon]

/-- `roleRank` (src/ocr.js lines 88-91). -/
def roleRank (role : List Char) : Nat :=
  if role = chs "NAME" then 0
  else if role = chs "SIRE" then 1
  else if role = chs "DAM" then 2
  else 3

/-- Stable sort by role rank (JS `Array.prototype.sort` is stable). -/
def rankInsert (x : RBlock) : List RBlock → List RBlock
  | [] => [x]
  | y :: ys =>
    if roleRank x.role ≤ roleRank y.role then x :: y :: ys
    else y :: rankInsert x ys

def rankSort : List RBlock → List RBlock
  | [] => []
  | x :: xs => rankInsert x (rankSort xs)

/-- The per-chunk classification of `segmentRabbits` (the body of its
`for` loop, src/ocr.js lines 71-82): role from the leading marker match
(upper-cased `m[1]`), content with the matched marker prefix stripped. -/
def classifyChunk (chunk : List Char) : RBlock :=
  match jsSearch roleRe chunk with
  | some (_, _, caps) =>
    ⟨(caps.g1.getD []).map Char.toUpper, jsReplaceFirst roleRe (constT "") chunk⟩
  | none =>
    if jsTest nameStartRe chunk then ⟨chs "NAME", chunk⟩
    else ⟨chs "UNKNOWN", chunk⟩

/-- `segmentRabbits` (src/ocr.js lines 64-86). -/
def segmentRabbits (s : List Char) : List RBlock :=
  let marked := jsReplaceAll markerRe markerT s
  let chunks := ((jsSplit splitMarkRe marked).map jsTrim).filter (fun x => !x.isEmpty)
  rankSort (chunks.map classifyChunk)

/-- Characters that cannot start a role keyword, form the marker delimiter,
or interfere with the inserted markers: everything except n/s/d (either
case), `=` and the newline. -/
def safeCh (ch : Char) : Bool :=
  !(ch == 'n' || ch == 'N' || ch == 's' || ch == 'S' || ch == 'd' ||
    ch == 'D' || ch == '=' || ch == '\n')

/-! ### parseSection (src/ocr.js lines 93-130) -/

structure Record where
  Role : List Char
  Name : List Char
  Ear : List Char
  Reg : List Char
  GC : List Char
  Variety : List Char
  Weight : List Char
  Legs : List Char
  Born : List Char
deriving DecidableEq

/-- `/(Name|Rabbit|Animal)[:\s]+([A-Za-z0-9'&\-\s]{3,})/` (case-sensitive). -/
def nameRe : RE :=
  catRE [.group 1 (.alt (strCS "Name") (.alt (strCS "Rabbit") (strCS "Animal"))),
    .rep wsColon 1 none false, .group 2 (.rep nameCls 3 none false)]

/-- `/Ear\s*#[:\s]*([A-Z0-9\-]+)\b/i`. -/
def earRe : RE :=
  catRE [strCI "Ear", .rep isWS 0 none false, lit '#', .rep wsColon 0 none false,
    .group 1 (.rep idCls 1 none false), .wb]

/-- `/Reg\s*#[:\s]*([A-Z0-9\-]+)\b/i`. -/
def regRe : RE :=
  catRE [strCI "Reg", .rep isWS 0 none false, lit '#', .rep wsColon 0 none false,
    .group 1 (.rep idCls 1 none false), .wb]

/-- `/\bGC\s*#[:\s]*([A-Z0-9\-]+)\b/i`. -/
def gcRe : RE :=
  catRE [.wb, strCI "GC", .rep isWS 0 none false, lit '#', .rep wsColon 0 none false,
    .group 1 (.rep idCls 1 none false), .wb]

/-- The lookahead alternatives `(?=Weight|Legs|Ear|Reg|GC|Born|Sire|Dam|$)`. -/
def varStopAlts : RE :=
  .alt (strCI "Weight") (.alt (strCI "Legs") (.alt (strCI "Ear")
    (.alt (strCI "Reg") (.alt (strCI "GC") (.alt (strCI "Born")
      (.alt (strCI "Sire") (.alt (strCI "Dam") .eol)))))))

/-- `/Variety[:\s]+([A-Za-z][A-Za-z\s\(\)\/\-]+?)\b(?=Weight|Legs|Ear|Reg|GC|Born|Sire|Dam|$)/i`. -/
def varietyRe : RE :=
  catRE [strCI "Variety", .rep wsColon 1 none false,
    .group 1 (.seq (.cls alphaCh) (.rep varCls 1 none true)),
    .wb, .look varStopAlts]

/-- `/Weight[:\s]*([0-9]{1,2}\s*lb\s*[0-9]{1,2}\s*oz)/i`. -/
def weightRe : RE :=
  catRE [strCI "Weight", .rep wsColon 0 none false,
    .group 1 (catRE [.rep digitCh 1 (some 2) false, .rep isWS 0 none false,
      liti 'l', liti 'b', .rep isWS 0 none false,
      .rep digitCh 1 (some 2) false, .rep isWS 0 none false,
      liti 'o', liti 'z'])]

/-- `/Legs?[:\s]*([0-9]{1,2})\b/i`. -/
def legsRe : RE :=
  catRE [strCI "Leg", .rep (fun c => c == 's' || c == 'S') 0 (some 1) false,
    .rep wsColon 0 none false, .group 1 (.rep digitCh 1 (some 2) false), .wb]

/-- `/Born[:\s]*([0-9OIl\-\/\.]{6,12})/i`. -/
def bornRe : RE :=
  catRE [strCI "Born", .rep wsColon 0 none false,
    .group 1 (.rep bornCls 6 (some 12) false)]

/-- `/^(?:Sire|Dam)[:\s]+([A-Za-z0-9'&\-\s]{3,})/i` (the inference fallback). -/
def inferRe : RE :=
  catRE [.bol, .alt (strCI "Sire") (strCI "Dam"), .rep wsColon 1 none false,
    .group 1 (.rep nameCls 3 none false)]

/-- `/^(SIRE|DAM)/i` applied to the block role. -/
def roleTestRe : RE := .seq .bol (.group 1 (.alt (strCI "SIRE") (strCI "DAM")))

/-- `' ' + sec.block.replace(/\n/g, ' ') + ' '` (the padded block). -/
def padBlk (b : List Char) : List Char :=
  ' ' :: (jsReplaceAll (RE.cls (fun c => c == '\n')) (constT " ") b ++ [' '])

/-- `normalizeDate` first substitutes `O`->`0`, `I`/`l`->`1`, `.`->`/`,
`-`->`/` (four global single-character replaces), then matches
`/^(\d{1,2})\/(\d{1,2})\/(\d{2,4})$/`. -/
def dateRe : RE :=
  catRE [.bol, .group 1 (.rep digitCh 1 (some 2) false), lit '/',
    .group 2 (.rep digitCh 1 (some 2) false), lit '/',
    .group 3 (.rep digitCh 2 (some 4) false), .eol]

/-- JS unary `+` on a digit string. -/
def toNum (l : List Char) : Nat :=
  l.foldl (fun a c => 10 * a + (c.toNat - '0'.toNat)) 0

/-- JS `padStart(2, '0')`. -/
def padStart2 (l : List Char) : List Char :=
  List.replicate (2 - l.length) '0' ++ l

/-- The OCR-noise substitutions of `normalizeDate`: the four global
replaces `[O]` to `0`, `[Il]` to `1`, dot to slash, dash to slash. -/
def dateSubst (s : List Char) : List Char :=
  jsReplaceAll (RE.cls (fun c => c == '-')) (constT "/")
    (jsReplaceAll (RE.cls (fun c => c == '.')) (constT "/")
      (jsReplaceAll (RE.cls (fun c => c == 'I' || c == 'l')) (constT "1")
        (jsReplaceAll (RE.cls (fun c => c == 'O')) (constT "0") s)))

/-- `normalizeDate` (src/ocr.js lines 132-141). -/
def normalizeDate (s : List Char) : List Char :=
  if s.isEmpty then []
  else
    match jsSearch dateRe (dateSubst s) with
    | none => jsTrim s
    | some (_, _, caps) =>
      let mm := caps.g1.getD []
      let dd := caps.g2.getD []
      let yy := caps.g3.getD []
      let yy' :=
        if yy.length == 2 then
          (if 70 ≤ toNum yy then chs "19" else chs "20") ++ yy
        else yy
      padStart2 mm ++ '/' :: (padStart2 dd ++ '/' :: yy')

/-- `parseSection` (src/ocr.js lines 93-130). -/
def parseSection (sec : RBlock) : Record :=
  let blk := padBlk sec.block
  let nameG := jsGrab nameRe blk
  let inferredName :=
    if nameG.isEmpty && jsTest roleTestRe sec.role then jsGrab inferRe blk
    else []
  ⟨sec.role,
   if nameG.isEmpty then inferredName else nameG,
   jsGrab earRe blk,
   jsGrab regRe blk,
   jsGrab gcRe blk,
   jsGrab varietyRe blk,
   jsGrab weightRe blk,
   jsGrab legsRe blk,
   normalizeDate (jsGrab bornRe blk)⟩

/-! ### Renderers (src/ocr.js lines 143-168) and the driver (lines 5-38) -/

/-- Decimal digits of a natural number (for the 1-based index in the
readable report); fueled for structural termination. -/
def natCharsF : Nat → Nat → List Char
  | 0, _ => []
  | fuel + 1, n =>
    if n < 10 then [Char.ofNat ('0'.toNat + n)]
    else natCharsF fuel (n / 10) ++ [Char.ofNat ('0'.toNat + n % 10)]

def natChars (n : Nat) : List Char := natCharsF (n + 1) n

/-- `l.replace(/&/g,'&amp;').replace(/</g,'&lt;')`. -/
def escLine (l : List Char) : List Char :=
  jsReplaceAll (RE.cls (fun c => c == '<')) (constT "&lt;")
    (jsReplaceAll (RE.cls (fun c => c == '&')) (constT "&amp;") l)

/-- The lines the readable renderer pushes for one record. -/
def readableLines (i : Nat) (r : Record) : List (List Char) :=
  ((chs "R" ++ natChars (i + 1) ++ chs " — " ++ r.Role) ::
    (if r.Name.isEmpty then [] else [chs "  Name: " ++ r.Name]) ++
    (if r.Variety.isEmpty then [] else [chs "  Variety: " ++ r.Variety]) ++
    (if r.Ear.isEmpty then [] else [chs "  Ear #: " ++ r.Ear]) ++
    (if r.Reg.isEmpty then [] else [chs "  Reg #: " ++ r.Reg]) ++
    (if r.GC.isEmpty then [] else [chs "  GC #: " ++ r.GC]) ++
    (if r.Weight.isEmpty then [] else [chs "  Weight: " ++ r.Weight]) ++
    (if r.Legs.isEmpty then [] else [chs "  Legs: " ++ r.Legs]) ++
    (if r.Born.isEmpty then [] else [chs "  Born: " ++ r.Born])) ++ [[]]

/-- `renderReadable` (src/ocr.js lines 143-159). -/
def renderReadable (rows : List Record) : List Char :=
  let lines := (rows.enum.map (fun p => readableLines p.1 p.2)).flatten
  List.intercalate (chs "<br>") (lines.map escLine)

/-- A JS value flowing into the TSV safety filter: the 1-based row index is
a number, every record field is a string. -/
inductive JVal where
  | num (n : Nat)
  | str (s : List Char)
deriving DecidableEq

/-- The separator regex `/\r?\n/` of the safety filter. -/
def crlfRe : RE :=
  .seq (.rep (fun c => c == '\r') 0 (some 1) false) (lit '\n')

/-- The safety filter `v => (v || '').replace(/\t/g,' ').replace(/\r?\n/g,' ').trim()`.
On the number `0`, `(v || '')` is `''` and the filter yields `''`; on a
nonzero number, `(v || '')` is the number itself, which has no `.replace`
method: the call throws a TypeError, modelled by `none`. -/
def safeVal : JVal → Option (List Char)
  | .num 0 => some []
  | .num (_ + 1) => none
  | .str s =>
    some (jsTrim (jsReplaceAll crlfRe (constT " ")
      (jsReplaceAll (RE.cls (fun c => c == '\t')) (constT " ") s)))

def tsvHeader : List Char :=
  List.intercalate (chs "\t")
    (["Index", "Role", "Name", "Variety", "Ear", "Reg", "GC", "Weight",
      "Legs", "Born"].map chs)

/-- The cell values of one TSV data row, in source order. -/
def tsvCells (i : Nat) (r : Record) : List JVal :=
  [.num (i + 1), .str r.Role, .str r.Name, .str r.Variety, .str r.Ear,
    .str r.Reg, .str r.GC, .str r.Weight, .str r.Legs, .str r.Born]

/-- `renderTSV` (src/ocr.js lines 161-168); `none` models the TypeError
thrown when the safety filter is applied to the numeric index. -/
def renderTSV (rows : List Record) : Option (List Char) := do
  let body ← rows.enum.mapM (fun p => do
    let cells ← (tsvCells p.1 p.2).mapM safeVal
    pure (List.intercalate (chs "\t") cells))
  pure (List.intercalate (chs "\n") (tsvHeader :: body))

/-- The calls `runOCR` makes on the engine and outputs, in order. -/
inductive OCREvent where
  | createWorker
  | loadLanguage
  | initEngine
  | recognize
  | terminate
  | renderOutputs
deriving DecidableEq

/-- The external OCR engine, reduced to the outcome of `recognize`: either
the recognized text or a rejection. -/
structure Engine where
  recognizeResult : Except (List Char) (List Char)

structure OCROutputs where
  readable : List Char
  tsv : Option (List Char)
deriving DecidableEq

/-- `runOCR` (src/ocr.js lines 5-38): the `await` chain in source order.
When `recognize` rejects, the exception propagates out of `runOCR`
immediately — the source has no try/finally, so `terminate` is not reached
on that path. -/
def runOCR (eng : Engine) : List OCREvent × Except (List Char) OCROutputs :=
  let pre := [OCREvent.createWorker, OCREvent.loadLanguage,
    OCREvent.initEngine, OCREvent.recognize]
  match eng.recognizeResult with
  | .error e => (pre, .error e)
  | .ok text =>
    let clean := preClean text
    let sections := segmentRabbits clean
    let rabbits := sections.map parseSection
    (pre ++ [OCREvent.terminate, OCREvent.renderOutputs],
      .ok ⟨renderReadable rabbits, renderTSV rabbits⟩)

/-! ### Well-formedness predicates for normalized dates -/

/-- Split on a single character (total, pure). -/
def splitC (c : Char) : List Char → List (List Char)
  | [] => [[]]
  | x :: xs =>
    let r := splitC c xs
    if x == c then [] :: r
    else
      match r with
      | [] => [[x]]
      | h :: t => (x :: h) :: t

def allDigits (l : List Char) : Bool := l.all digitCh

/-- The claim's notion of a well-formed normalized date: two-digit month,
two-digit day, four-digit year, separated by slashes. -/
def wfMMDDYYYY (r : List Char) : Bool :=
  match splitC '/' r with
  | [m, d, y] =>
    allDigits m && m.length == 2 && allDigits d && d.length == 2 &&
      allDigits y && y.length == 4
  | _ => false

/-- What `normalizeDate` actually guarantees on its match branch: two-digit
month, two-digit day, and a year of three or four digits. -/
def wfMMDDY34 (r : List Char) : Bool :=
  match splitC '/' r with
  | [m, d, y] =>
    allDigits m && m.length == 2 && allDigits d && d.length == 2 &&
      allDigits y && (y.length == 3 || y.length == 4)
  | _ => false

/-! ### Prefix tests used to state keyword-freeness hypotheses -/

/-- `ciPfx pat t`: `t` starts with the pattern string `pat`, compared
case-insensitively exactly as `strCI`/`liti` compare (`charCI`). -/
def ciPfx : List Char → List Char → Bool
  | [], _ => true
  | _ :: _, [] => false
  | p :: ps, c :: cs => charCI p c && ciPfx ps cs

/-- Case-sensitive prefix test. -/
def csPfx : List Char → List Char → Bool
  | [], _ => true
  | _ :: _, [] => false
  | p :: ps, c :: cs => c == p && csPfx ps cs

/-- `t` starts with one of the role keywords `Name`/`Sire`/`Dam`, in any
letter case. -/
def kwStart (t : List Char) : Bool :=
  ciPfx (chs "Name") t || ciPfx (chs "Sire") t || ciPfx (chs "Dam") t

/-- `t` starts with the split delimiter sequence `\n===`. -/
def markStart (t : List Char) : Bool := csPfx (chs "\n===") t

/-- The `prev` component after consuming `u` starting from `prev = p`. -/
def lastPrev (u : List Char) (p : Option Char) : Option Char :=
  match u.reverse with
  | [] => p
  | c :: _ => some c

/-! ### Helper lemmas about the matcher -/

lemma oalt_isSome (a b : Option α) : (oalt a b).isSome = (a.isSome || b.isSome) := by
  cases a <;> rfl

lemma repM_total (p : Char → Bool) (k : MState → Caps → Option (MState × Caps))
    (hk : ∀ st c, (k st c).isSome = true) :
    ∀ (rest : List Char) (prev : Option Char) (caps : Caps),
      (repM p k 0 none false rest prev caps).isSome = true := by
  intro rest
  induction rest with
  | nil => intro prev caps; simpa [repM] using hk ⟨[], prev⟩ caps
  | cons c cs ih =>
    intro prev caps
    by_cases hc : p c
    · simp [repM, hc, oalt_isSome, ih]
    · simp [repM, hc]; exact hk _ _

lemma matchFrom_seq_bol (re : RE) (l : List Char) (c : Char) :
    matchFrom (.seq .bol re) ⟨l, some c⟩ = none := rfl

lemma searchAux_seq_bol (re : RE) (l : List Char) :
    ∀ c : Char, searchAux (.seq .bol re) l (some c) = none := by
  induction l with
  | nil => intro c; simp [searchAux, matchFrom_seq_bol]
  | cons x xs ih => intro c; simp [searchAux, matchFrom_seq_bol, ih]

/-- The inference fallback regex is anchored by `^`, but `parseSection` pads
the block with a leading space, so the regex can never match the padded
block: its match fails at the initial state (the head is the pad space) and
at every later state (`^` fails away from the start). -/
lemma jsSearch_inferRe_sp (l : List Char) : jsSearch inferRe (' ' :: l) = none := by
  have h0 : matchFrom inferRe ⟨' ' :: l, none⟩ = none := rfl
  have h1 : searchAux inferRe l (some ' ') = none := by
    have hs : inferRe = RE.seq .bol (catRE [.alt (strCI "Sire") (strCI "Dam"),
        .rep wsColon 1 none false, .group 1 (.rep nameCls 3 none false)]) := rfl
    rw [hs]; exact searchAux_seq_bol _ l ' '
  simp [jsSearch, searchAux, h0, h1]

lemma jsGrab_inferRe_pad (b : List Char) : jsGrab inferRe (padBlk b) = [] := by
  simp [jsGrab, padBlk, jsSearch_inferRe_sp]

/-! ### Claim theorems -/

/-- Claim C1, counterexample.  The claim states that on the block content
`" Name: Thumper Variety: Dutch Weight: 4 lb 2 oz Legs: 4 Born: 11-10-2024 "`
the extractor produces `Name = "Thumper"`.  It does not: the name capture
class `[A-Za-z0-9'&\-\s]{3,}` is greedy and includes spaces, so the capture
runs up to the colon after `Variety`. -/
theorem C1_counterexample :
    (parseSection ⟨chs "NAME",
      chs " Name: Thumper Variety: Dutch Weight: 4 lb 2 oz Legs: 4 Born: 11-10-2024 "⟩).Name ≠
    chs "Thumper" := by decide

/-- Claim C1, amended.  On the block content
`" Name: Thumper Variety: Dutch Weight: 4 lb 2 oz Legs: 4 Born: 11-10-2024 "`
the extractor produces Name = `"Thumper Variety"` (the greedy name capture
absorbs the following `Variety` label word, stopping at the colon), Variety
= `"Dutch"`, Weight = `"4 lb 2 oz"`, Legs = `"4"`, Born = `"11/10/2024"`,
and empty Ear, Reg and GC fields. -/
theorem C1_extractor_greedy_name :
    parseSection ⟨chs "NAME",
      chs " Name: Thumper Variety: Dutch Weight: 4 lb 2 oz Legs: 4 Born: 11-10-2024 "⟩ =
    ⟨chs "NAME", chs "Thumper Variety", [], [], [], chs "Dutch",
      chs "4 lb 2 oz", chs "4", chs "11/10/2024"⟩ := by decide

/-- Claim C2.  The claim states that the `Sire:`/`Dam:` name-inference
fallback sets the extracted Name; in the code it never can: `parseSection`
matches the `^`-anchored fallback regex against the space-padded block, so
the match always fails and the Name stays equal to the primary name grab —
in particular the claim's own example, a SIRE block with content
`" Sire: Big Chief Ear # AB-12 "`, yields Name = `""`, not `"Big Chief"`
(the ear number is still extracted). -/
theorem C2_inference_never_fires :
    (∀ sec : RBlock, (parseSection sec).Name = jsGrab nameRe (padBlk sec.block)) ∧
    parseSection ⟨chs "SIRE", chs " Sire: Big Chief Ear # AB-12 "⟩ =
      ⟨chs "SIRE", [], chs "AB-12", [], [], [], [], [], []⟩ := by
  constructor
  · intro sec
    have hinf := jsGrab_inferRe_pad sec.block
    simp only [parseSection, hinf]
    by_cases h : (jsGrab nameRe (padBlk sec.block)).isEmpty
    · simp [h, List.isEmpty_iff.mp h]
    · simp [h]
  · decide

/-- Claim C3, counterexample.  The claim states the date normalizer always
returns a well-formed `MM/DD/YYYY` string (four-digit year) or the trimmed
original token.  The token `"1/1/123"` matches the date pattern with a
three-digit year, which the pivot rule leaves untouched, producing
`"01/01/123"`: neither well-formed nor the original. -/
theorem C3_counterexample :
    wfMMDDYYYY (normalizeDate (chs "1/1/123")) = false ∧
    normalizeDate (chs "1/1/123") ≠ jsTrim (chs "1/1/123") := by decide

/-- Claim C4.  The claim (spec property) states the normalizer is
idempotent.  The code's rule `/ariety/gi -> 'Variety'` matches inside its
own output (`"Variety"` contains `"ariety"`), so re-normalizing grows the
string: `preClean "Variety" = "VVariety"` and
`preClean (preClean "Variety") = "VVVariety"`. -/
theorem C4_preClean_not_idempotent :
    preClean (chs "Variety") = chs "VVariety" ∧
    preClean (preClean (chs "Variety")) = chs "VVVariety" := by decide

/-- Claim C5.  The claim states the variety value is captured up to the next
field label or up to the end of the block.  The label cutoff works, but the
end-of-block case never matches: `parseSection` pads the block with a
trailing space, so the `$` lookahead alternative can never fire after the
required `\b` (the padded block never ends right after a word character).
With a following `Weight` label the variety is `"Dutch"`; with the variety
at the end of the block it is empty. -/
theorem C5_variety_requires_following_label :
    (parseSection ⟨chs "NAME", chs " Variety: Dutch Weight: 4 lb 2 oz "⟩).Variety =
      chs "Dutch" ∧
    (parseSection ⟨chs "NAME", chs "Variety: Dutch"⟩).Variety = [] := by decide

/-- Claim C6.  The claim states `terminate` is invoked after `recognize`
completes AND after it fails.  The code has no try/finally: when `recognize`
rejects, the awaited exception propagates out of `runOCR` before the
`terminate` line is reached, so on the failure path `terminate` is never
called; on the success path it is. -/
theorem C6_terminate_skipped_on_failure :
    (runOCR ⟨.error (chs "scan failed")⟩).1 =
      [.createWorker, .loadLanguage, .initEngine, .recognize] ∧
    OCREvent.terminate ∉ (runOCR ⟨.error (chs "scan failed")⟩).1 ∧
    (runOCR ⟨.error (chs "scan failed")⟩).2 = .error (chs "scan failed") ∧
    OCREvent.terminate ∈ (runOCR ⟨.ok (chs "")⟩).1 :=
  ⟨by decide, by decide, rfl, by decide⟩

/-- Claim C7, counterexample.  The claim states that any input with exactly
one occurrence each of `Name`, `Sire`, `Dam` in that order segments into
exactly 3 blocks.  Untagged text before the first keyword becomes a fourth
UNKNOWN block (sorted to the end): the input
`"x Name: A Sire: B Dam: C"` yields 4 blocks. -/
theorem C7_counterexample :
    (segmentRabbits (chs "x Name: A Sire: B Dam: C")).map RBlock.role =
      [chs "NAME", chs "SIRE", chs "DAM", chs "UNKNOWN"] := by decide

/-- Claim C8, counterexample.  The claim states that any input free of role
keywords segments into exactly one UNKNOWN block holding the trimmed input.
An empty (or all-blank) input yields no blocks at all, and an input
containing the internal delimiter sequence `\n===` is split at it, yielding
two UNKNOWN blocks. -/
theorem C8_counterexample :
    segmentRabbits (chs "") = [] ∧
    (segmentRabbits (chs "x\n=== y")).map RBlock.role =
      [chs "UNKNOWN", chs "UNKNOWN"] := by decide

/-- Claim C9.  The claim states the TSV rows round-trip through a tab split
because every field value passes the safety filter.  In the code the filter
is also applied to the numeric 1-based row index: `(v || '')` keeps a
nonzero number, and a number has no `.replace` method, so `renderTSV`
throws a TypeError (modelled as `none`) for every nonempty record list —
no data row is ever produced.  With no records it emits the header only. -/
theorem C9_renderTSV_index_typeerror :
    (∀ (r : Record) (rs : List Record), renderTSV (r :: rs) = none) ∧
    renderTSV [] = some tsvHeader := by
  refine ⟨fun r rs => ?_, rfl⟩
  simp [renderTSV, List.enum, List.enumFrom, tsvCells, safeVal, List.mapM,
    List.mapM.loop]

/-- Claim C10.  The normalizer's Ear rule `/[Ee]ar[\s#:]*/g` rewrites every
occurrence of the letter sequence `ear`/`Ear`, with no word boundary before
it and no required delimiter after it: `preClean "Heart" = "HEar # t"`, and
the `earFixRe` matcher fires at any state whose input starts with
`ear`/`Ear`, whatever precedes or follows.  By contrast, the Reg rule
requires a leading word boundary: `preClean "oregon" = "oregon"`, and the
`regFixRe` matcher fails whenever a word character precedes `Reg`. -/
theorem C10_ear_rule_no_boundary :
    preClean (chs "Heart") = chs "HEar # t" ∧
    preClean (chs "oregon") = chs "oregon" ∧
    (∀ (rest : List Char) (prev : Option Char),
      (matchFrom earFixRe ⟨'e' :: 'a' :: 'r' :: rest, prev⟩).isSome = true) ∧
    (∀ (rest : List Char) (prev : Option Char),
      (matchFrom earFixRe ⟨'E' :: 'a' :: 'r' :: rest, prev⟩).isSome = true) ∧
    (∀ (rest : List Char) (c : Char), isWordChar c = true →
      matchFrom regFixRe ⟨'R' :: 'e' :: 'g' :: rest, some c⟩ = none) := by
  refine ⟨by decide, by decide, fun rest prev => ?_, fun rest prev => ?_,
    fun rest c hc => ?_⟩
  · have hred : matchFrom earFixRe ⟨'e' :: 'a' :: 'r' :: rest, prev⟩ =
        repM wsHashColon (fun s c => some (s, c)) 0 none false rest (some 'r') {} := rfl
    rw [hred]
    exact repM_total wsHashColon (fun s c => some (s, c)) (fun st c => rfl)
      rest (some 'r') {}
  · have hred : matchFrom earFixRe ⟨'E' :: 'a' :: 'r' :: rest, prev⟩ =
        repM wsHashColon (fun s c => some (s, c)) 0 none false rest (some 'r') {} := rfl
    rw [hred]
    exact repM_total wsHashColon (fun s c => some (s, c)) (fun st c => rfl)
      rest (some 'r') {}
  · have hR : isWordChar 'R' = true := by decide
    simp [matchFrom, regFixRe, catRE, matchRE, isWordOpt, hc, hR]

/-- Witness for C10: the boundary conjunct applied at a concrete state
(previous character `x`, a word character). -/
theorem C10_ear_rule_no_boundary_witness :
    isWordChar 'x' = true ∧
    matchFrom regFixRe ⟨['R', 'e', 'g'], some 'x'⟩ = none :=
  ⟨by decide, C10_ear_rule_no_boundary.2.2.2.2 [] 'x' (by decide)⟩

/-! ### Soundness lemmas for the date pattern, and claim C3 -/

lemma oalt_eq_some {a b : Option α} {r : α} (h : oalt a b = some r) :
    a = some r ∨ (a = none ∧ b = some r) := by
  cases a with
  | some x => exact Or.inl h
  | none => exact Or.inr ⟨rfl, h⟩

lemma done_some {lo : Nat} {k : MState → Caps → Option (MState × Caps)}
    {rest : List Char} {prev : Option Char} {caps : Caps} {r : MState × Caps}
    (h : (if lo = 0 then k ⟨rest, prev⟩ caps else none) = some r) :
    lo = 0 ∧ k ⟨rest, prev⟩ caps = some r := by
  by_cases hlo : lo = 0
  · exact ⟨hlo, by simpa [hlo] using h⟩
  · simp [hlo] at h

lemma repM_sound (p : Char → Bool) (k : MState → Caps → Option (MState × Caps)) :
    ∀ (rest : List Char) (lo : Nat) (hi : Option Nat) (lz : Bool)
      (prev : Option Char) (caps : Caps) (r : MState × Caps),
      repM p k lo hi lz rest prev caps = some r →
      ∃ n pv, lo ≤ n ∧ (∀ h, hi = some h → n ≤ h) ∧ n ≤ rest.length ∧
        ((rest.take n).all p = true) ∧ k ⟨rest.drop n, pv⟩ caps = some r := by
  intro rest
  induction rest with
  | nil =>
    intro lo hi lz prev caps r h
    rw [repM] at h
    obtain ⟨hlo, hk⟩ := done_some h
    exact ⟨0, prev, by omega, fun h' _ => Nat.zero_le _, by simp, by simp, hk⟩
  | cons c cs ih =>
    intro lo hi lz prev caps r h
    rw [repM] at h
    by_cases hzero : hi = some 0
    · rw [if_pos hzero] at h
      obtain ⟨hlo, hk⟩ := done_some h
      exact ⟨0, prev, by omega, fun h' _ => Nat.zero_le _, by simp, by simp, hk⟩
    · rw [if_neg hzero] at h
      by_cases hp : p c
      · rw [if_pos hp] at h
        have hcases :
            repM p k (lo - 1) (hi.map (· - 1)) lz cs (some c) caps = some r ∨
            (if lo = 0 then k ⟨c :: cs, prev⟩ caps else none) = some r := by
          cases lz with
          | true =>
            rcases oalt_eq_some (by simpa using h) with h1 | ⟨_, h2⟩
            · exact Or.inr h1
            · exact Or.inl h2
          | false =>
            rcases oalt_eq_some (by simpa using h) with h1 | ⟨_, h2⟩
            · exact Or.inl h1
            · exact Or.inr h2
        rcases hcases with hmore | hdone
        · obtain ⟨n, pv, h1, h2, h3, h4, h5⟩ :=
            ih (lo - 1) (hi.map (· - 1)) lz (some c) caps r hmore
          refine ⟨n + 1, pv, by omega, ?_, by simpa using h3, ?_, by simpa using h5⟩
          · intro m hm
            subst hm
            have hm0 : m ≠ 0 := fun h0 => hzero (by rw [h0])
            have := h2 (m - 1) (by simp)
            omega
          · simpa [hp] using h4
        · obtain ⟨hlo, hk⟩ := done_some hdone
          exact ⟨0, prev, by omega, fun h' _ => Nat.zero_le _, by simp, by simp, hk⟩
      · rw [if_neg hp] at h
        obtain ⟨hlo, hk⟩ := done_some h
        exact ⟨0, prev, by omega, fun h' _ => Nat.zero_le _, by simp, by simp, hk⟩


lemma cls_sound {p : Char → Bool} {k : MState → Caps → Option (MState × Caps)}
    {st : MState} {caps : Caps} {r : MState × Caps}
    (h : matchRE (.cls p) k st caps = some r) :
    ∃ c cs, st.rest = c :: cs ∧ p c = true ∧ k ⟨cs, some c⟩ caps = some r := by
  cases hst : st.rest with
  | nil =>
    rw [matchRE, hst] at h
    exact absurd h (by simp)
  | cons c cs =>
    rw [matchRE, hst] at h
    have h' : (if p c = true then k ⟨cs, some c⟩ caps else none) = some r := h
    by_cases hp : p c
    · exact ⟨c, cs, rfl, hp, by rwa [if_pos hp] at h'⟩
    · rw [if_neg hp] at h'; cases h'

lemma lit_sound {c0 : Char} {k : MState → Caps → Option (MState × Caps)}
    {st : MState} {caps : Caps} {r : MState × Caps}
    (h : matchRE (lit c0) k st caps = some r) :
    ∃ cs, st.rest = c0 :: cs ∧ k ⟨cs, some c0⟩ caps = some r := by
  obtain ⟨c, cs, hrest, hp, hk⟩ := cls_sound h
  have hc : c = c0 := by simpa using hp
  subst hc
  exact ⟨cs, hrest, hk⟩

lemma group_rep_sound {i : Nat} {p : Char → Bool} {lo : Nat} {hi : Option Nat}
    {k : MState → Caps → Option (MState × Caps)}
    {st : MState} {caps : Caps} {r : MState × Caps}
    (h : matchRE (.group i (.rep p lo hi false)) k st caps = some r) :
    ∃ n pv, lo ≤ n ∧ (∀ m, hi = some m → n ≤ m) ∧ n ≤ st.rest.length ∧
      ((st.rest.take n).all p = true) ∧
      k ⟨st.rest.drop n, pv⟩ (caps.set i (st.rest.take n)) = some r := by
  have h' : repM p (fun st' c' => k st'
      (c'.set i (st.rest.take (st.rest.length - st'.rest.length)))) lo hi false
      st.rest st.prev caps = some r := h
  obtain ⟨n, pv, h1, h2, h3, h4, h5⟩ := repM_sound _ _ _ _ _ _ _ _ _ h'
  refine ⟨n, pv, h1, h2, h3, h4, ?_⟩
  rw [List.length_drop, Nat.sub_sub_self h3] at h5
  exact h5

lemma eol_end_sound {st : MState} {caps : Caps} {r : MState × Caps}
    (h : matchRE (catRE [.eol]) (fun s c => some (s, c)) st caps = some r) :
    r.2 = caps := by
  by_cases hrest : st.rest = []
  · have he : matchRE (catRE [.eol]) (fun s c => some (s, c)) st caps =
        some (st, caps) := by
      show matchRE (.seq .eol (catRE [])) _ st caps = _
      rw [matchRE]
      show matchRE .eol _ st caps = _
      rw [matchRE, if_pos hrest]
      rfl
    rw [he] at h
    cases h
    rfl
  · have he : matchRE (catRE [.eol]) (fun s c => some (s, c)) st caps = none := by
      show matchRE (.seq .eol (catRE [])) _ st caps = _
      rw [matchRE]
      show matchRE .eol _ st caps = _
      rw [matchRE, if_neg hrest]
    rw [he] at h
    cases h

lemma jsSearch_bol_start {re : RE} {s : List Char} {st e : MState} {caps : Caps}
    (h : jsSearch (.seq .bol re) s = some (st, e, caps)) :
    matchFrom (.seq .bol re) ⟨s, none⟩ = some (e, caps) := by
  cases s with
  | nil =>
    rw [jsSearch, searchAux] at h
    cases hm : matchFrom (.seq .bol re) ⟨[], none⟩ with
    | some x =>
      obtain ⟨e', caps'⟩ := x
      rw [hm] at h
      have h' : some ((⟨[], none⟩ : MState), e', caps') = some (st, e, caps) := h
      injection h' with h1
      injection h1 with h2 h3
      injection h3 with h4 h5
      rw [h4, h5]
    | none =>
      rw [hm] at h
      exact absurd h (by simp)
  | cons c cs =>
    rw [jsSearch, searchAux] at h
    cases hm : matchFrom (.seq .bol re) ⟨c :: cs, none⟩ with
    | some x =>
      obtain ⟨e', caps'⟩ := x
      rw [hm] at h
      have h' : some ((⟨c :: cs, none⟩ : MState), e', caps') = some (st, e, caps) := h
      injection h' with h1
      injection h1 with h2 h3
      injection h3 with h4 h5
      rw [h4, h5]
    | none =>
      rw [hm] at h
      have h' : searchAux (RE.seq .bol re) cs (some c) = some (st, e, caps) := h
      rw [searchAux_seq_bol] at h'
      cases h'

lemma dateRe_sound {t : List Char} {st e : MState} {caps : Caps}
    (h : jsSearch dateRe t = some (st, e, caps)) :
    ∃ mm dd yy, caps.g1 = some mm ∧ caps.g2 = some dd ∧ caps.g3 = some yy ∧
      allDigits mm = true ∧ 1 ≤ mm.length ∧ mm.length ≤ 2 ∧
      allDigits dd = true ∧ 1 ≤ dd.length ∧ dd.length ≤ 2 ∧
      allDigits yy = true ∧ 2 ≤ yy.length ∧ yy.length ≤ 4 := by
  have h0 : matchFrom dateRe ⟨t, none⟩ = some (e, caps) := jsSearch_bol_start h
  have h1 : matchRE (.group 1 (.rep digitCh 1 (some 2) false))
      (fun st1 c1 => matchRE (catRE [lit '/',
        .group 2 (.rep digitCh 1 (some 2) false), lit '/',
        .group 3 (.rep digitCh 2 (some 4) false), .eol])
        (fun s c => some (s, c)) st1 c1)
      ⟨t, none⟩ {} = some (e, caps) := h0
  obtain ⟨n1, pv1, hlo1, hhi1, hlen1, hall1, hk1⟩ := group_rep_sound h1
  have h2 : matchRE (lit '/')
      (fun st1 c1 => matchRE (catRE [.group 2 (.rep digitCh 1 (some 2) false),
        lit '/', .group 3 (.rep digitCh 2 (some 4) false), .eol])
        (fun s c => some (s, c)) st1 c1)
      ⟨t.drop n1, pv1⟩ (Caps.set 1 (t.take n1) {}) = some (e, caps) := hk1
  obtain ⟨cs2, hrest2, hk2⟩ := lit_sound h2
  have h3 : matchRE (.group 2 (.rep digitCh 1 (some 2) false))
      (fun st1 c1 => matchRE (catRE [lit '/',
        .group 3 (.rep digitCh 2 (some 4) false), .eol])
        (fun s c => some (s, c)) st1 c1)
      ⟨cs2, some '/'⟩ (Caps.set 1 (t.take n1) {}) = some (e, caps) := hk2
  obtain ⟨n2, pv2, hlo2, hhi2, hlen2, hall2, hk3⟩ := group_rep_sound h3
  have h4 : matchRE (lit '/')
      (fun st1 c1 => matchRE (catRE [.group 3 (.rep digitCh 2 (some 4) false), .eol])
        (fun s c => some (s, c)) st1 c1)
      ⟨cs2.drop n2, pv2⟩ (Caps.set 2 (cs2.take n2) (Caps.set 1 (t.take n1) {})) =
        some (e, caps) := hk3
  obtain ⟨cs3, hrest3, hk4⟩ := lit_sound h4
  have h5 : matchRE (.group 3 (.rep digitCh 2 (some 4) false))
      (fun st1 c1 => matchRE (catRE [.eol]) (fun s c => some (s, c)) st1 c1)
      ⟨cs3, some '/'⟩ (Caps.set 2 (cs2.take n2) (Caps.set 1 (t.take n1) {})) =
        some (e, caps) := hk4
  obtain ⟨n3, pv3, hlo3, hhi3, hlen3, hall3, hk5⟩ := group_rep_sound h5
  have h6 : matchRE (catRE [.eol]) (fun s c => some (s, c))
      ⟨cs3.drop n3, pv3⟩ (Caps.set 3 (cs3.take n3)
        (Caps.set 2 (cs2.take n2) (Caps.set 1 (t.take n1) {}))) = some (e, caps) := hk5
  have hcaps : caps = Caps.set 3 (cs3.take n3)
      (Caps.set 2 (cs2.take n2) (Caps.set 1 (t.take n1) {})) := by
    simpa using eol_end_sound h6
  have hlen1' : n1 ≤ t.length := by simpa using hlen1
  have hlen2' : n2 ≤ cs2.length := by simpa using hlen2
  have hlen3' : n3 ≤ cs3.length := by simpa using hlen3
  have hub1 : n1 ≤ 2 := hhi1 2 rfl
  have hub2 : n2 ≤ 2 := hhi2 2 rfl
  have hub3 : n3 ≤ 4 := hhi3 4 rfl
  refine ⟨t.take n1, cs2.take n2, cs3.take n3, ?_, ?_, ?_, hall1, ?_, ?_,
    hall2, ?_, ?_, hall3, ?_, ?_⟩
  · rw [hcaps]; simp [Caps.set]
  · rw [hcaps]; simp [Caps.set]
  · rw [hcaps]; simp [Caps.set]
  · simp [List.length_take]; omega
  · simp [List.length_take]; omega
  · simp [List.length_take]; omega
  · simp [List.length_take]; omega
  · simp [List.length_take]; omega
  · simp [List.length_take]; omega

lemma dropWhile_rdrop (p : Char → Bool) (l : List Char) :
    List.dropWhile p (List.rdropWhile p (List.dropWhile p l)) =
      List.rdropWhile p (List.dropWhile p l) := by
  induction l with
  | nil => simp [List.rdropWhile]
  | cons x xs ih =>
    by_cases hp : p x
    · simpa [List.dropWhile_cons, hp] using ih
    · simp only [List.dropWhile_cons, hp, if_false, Bool.false_eq_true]
      rw [List.rdropWhile, List.reverse_cons, List.dropWhile_append]
      by_cases he : (List.dropWhile p xs.reverse).isEmpty
      · simp [he, List.dropWhile_cons, hp]
      · simp only [he, if_false, Bool.false_eq_true, List.reverse_append,
          List.reverse_cons, List.reverse_nil, List.nil_append,
          List.singleton_append]
        simp [List.dropWhile_cons, hp]

lemma jsTrim_eq (l : List Char) :
    jsTrim l = List.rdropWhile isWS (List.dropWhile isWS l) := rfl

lemma jsTrim_idem (s : List Char) : jsTrim (jsTrim s) = jsTrim s := by
  rw [jsTrim_eq, jsTrim_eq, dropWhile_rdrop, List.rdropWhile_idempotent]

lemma jsTrim_jsGrab (re : RE) (s : List Char) :
    jsTrim (jsGrab re s) = jsGrab re s := by
  rw [jsGrab]
  cases jsSearch re s with
  | none => rfl
  | some x => exact jsTrim_idem _

lemma splitC_no {c : Char} {u : List Char} (h : ∀ x ∈ u, (x == c) = false) :
    splitC c u = [u] := by
  induction u with
  | nil => rfl
  | cons x xs ih =>
    rw [splitC]
    simp only [h x (by simp), if_false, Bool.false_eq_true]
    rw [ih (fun y hy => h y (by simp [hy]))]

lemma splitC_sep {c : Char} {u v : List Char} (h : ∀ x ∈ u, (x == c) = false) :
    splitC c (u ++ c :: v) = u :: splitC c v := by
  induction u with
  | nil => simp [splitC]
  | cons x xs ih =>
    rw [List.cons_append, splitC]
    simp only [h x (by simp), if_false, Bool.false_eq_true]
    rw [ih (fun y hy => h y (by simp [hy]))]

lemma digit_ne_slash {x : Char} (h : digitCh x = true) : (x == '/') = false := by
  cases hx : (x == '/') with
  | false => rfl
  | true =>
    have hx' : x = '/' := by simpa using hx
    rw [hx'] at h
    exact absurd h (by decide)

lemma allDigits_no_slash {u : List Char} (h : allDigits u = true) :
    ∀ x ∈ u, (x == '/') = false := fun x hx =>
  digit_ne_slash (List.all_eq_true.mp h x hx)

lemma wf34_build {A B Y : List Char} (hA : allDigits A = true) (hAl : A.length = 2)
    (hB : allDigits B = true) (hBl : B.length = 2)
    (hY : allDigits Y = true) (hYl : Y.length = 3 ∨ Y.length = 4) :
    wfMMDDY34 (A ++ '/' :: (B ++ '/' :: Y)) = true := by
  rw [wfMMDDY34, splitC_sep (allDigits_no_slash hA),
    splitC_sep (allDigits_no_slash hB), splitC_no (allDigits_no_slash hY)]
  simp only [hA, hAl, hB, hBl, hY]
  rcases hYl with h | h <;> simp [h]

lemma padStart2_allDigits {l : List Char} (h : allDigits l = true) :
    allDigits (padStart2 l) = true := by
  rw [padStart2, allDigits, List.all_append]
  have : (List.replicate (2 - l.length) '0').all digitCh = true := by
    simp [List.all_eq_true]
    exact Or.inr (by decide)
  simp [this, h, allDigits] at h ⊢
  exact h

lemma padStart2_length {l : List Char} (h1 : 1 ≤ l.length) (h2 : l.length ≤ 2) :
    (padStart2 l).length = 2 := by
  rw [padStart2]
  simp [List.length_replicate]
  omega

/-- Claim C3, amended.  For every input token, the date normalizer returns
either a normalized string with two-digit month, two-digit day and a
three-or-four-digit year, or the trimmed original token unchanged; and the
extractor's Born field always satisfies the same or equals the trimmed
captured token. -/
theorem C3_date_normalizer_amended :
    (∀ s : List Char, wfMMDDY34 (normalizeDate s) = true ∨ normalizeDate s = jsTrim s) ∧
    (∀ sec : RBlock, wfMMDDY34 ((parseSection sec).Born) = true ∨
      (parseSection sec).Born = jsGrab bornRe (padBlk sec.block)) := by
  have main : ∀ s : List Char,
      wfMMDDY34 (normalizeDate s) = true ∨ normalizeDate s = jsTrim s := by
    intro s
    by_cases hse : s.isEmpty
    · right
      have hs : s = [] := List.isEmpty_iff.mp hse
      subst hs
      rfl
    · rw [normalizeDate, if_neg hse]
      cases hm : jsSearch dateRe (dateSubst s) with
      | none => right; rfl
      | some x =>
        obtain ⟨st', e', cp⟩ := x
        left
        obtain ⟨mm, dd, yy, hg1, hg2, hg3, hmmd, hmm1, hmm2, hddd, hdd1, hdd2,
          hyyd, hyy2, hyy4⟩ := dateRe_sound hm
        simp only [hg1, hg2, hg3, Option.getD_some]
        apply wf34_build (padStart2_allDigits hmmd) (padStart2_length hmm1 hmm2)
          (padStart2_allDigits hddd) (padStart2_length hdd1 hdd2)
        · have hyy' : yy.all digitCh = true := hyyd
          by_cases hy2 : (yy.length == 2) = true
          · rw [if_pos hy2]
            by_cases h70 : 70 ≤ toNum yy
            · rw [if_pos h70]
              show (chs "19" ++ yy).all digitCh = true
              rw [List.all_append]
              simp [hyy']
              decide
            · rw [if_neg h70]
              show (chs "20" ++ yy).all digitCh = true
              rw [List.all_append]
              simp [hyy']
              decide
          · rw [if_neg hy2]
            exact hyyd
        · by_cases hy2 : (yy.length == 2) = true
          · right
            rw [if_pos hy2]
            have hl : yy.length = 2 := by simpa using hy2
            by_cases h70 : 70 ≤ toNum yy
            · rw [if_pos h70]; simp [chs, hl]
            · rw [if_neg h70]; simp [chs, hl]
          · have hne : yy.length ≠ 2 := by simpa using hy2
            rw [if_neg hy2]
            omega
  refine ⟨main, fun sec => ?_⟩
  have hborn : (parseSection sec).Born =
      normalizeDate (jsGrab bornRe (padBlk sec.block)) := rfl
  rcases main (jsGrab bornRe (padBlk sec.block)) with h | h
  · left; rw [hborn]; exact h
  · right; rw [hborn, h, jsTrim_jsGrab]

/-! ### Keyword-freeness lemmas, and claim C8 -/

/-- A case-insensitive literal run followed by anything fails when the
prefix test fails. -/
lemma litiRun_none :
    ∀ (ws : List Char) (re2 : RE) (st : MState)
      (k : MState → Caps → Option (MState × Caps)) (caps : Caps),
      ciPfx ws st.rest = false →
      matchRE (ws.foldr (fun c r => RE.seq (liti c) r) re2) k st caps = none := by
  intro ws
  induction ws with
  | nil => intro re2 st k caps h; simp [ciPfx] at h
  | cons p ps ih =>
    intro re2 st k caps h
    cases hst : st.rest with
    | nil =>
      have hred : matchRE ((p :: ps).foldr (fun c r => RE.seq (liti c) r) re2) k st caps =
          matchRE (.cls (charCI p))
            (fun a b => matchRE (ps.foldr (fun c r => RE.seq (liti c) r) re2) k a b)
            st caps := rfl
      rw [hred, matchRE, hst]
    | cons c cs =>
      rw [hst] at h
      have h' : (charCI p c && ciPfx ps cs) = false := h
      have hred : matchRE ((p :: ps).foldr (fun c r => RE.seq (liti c) r) re2) k st caps =
          matchRE (.cls (charCI p))
            (fun a b => matchRE (ps.foldr (fun c r => RE.seq (liti c) r) re2) k a b)
            st caps := rfl
      rw [hred, matchRE, hst]
      show (if charCI p c = true then
          matchRE (ps.foldr (fun c r => RE.seq (liti c) r) re2) k ⟨cs, some c⟩ caps
        else none) = none
      by_cases hc : charCI p c
      · rw [if_pos hc]
        exact ih re2 ⟨cs, some c⟩ k caps (by simpa [hc] using h')
      · rw [if_neg hc]

/-- A case-sensitive literal run followed by anything fails when the prefix
test fails. -/
lemma litRun_none :
    ∀ (ws : List Char) (re2 : RE) (st : MState)
      (k : MState → Caps → Option (MState × Caps)) (caps : Caps),
      csPfx ws st.rest = false →
      matchRE (ws.foldr (fun c r => RE.seq (lit c) r) re2) k st caps = none := by
  intro ws
  induction ws with
  | nil => intro re2 st k caps h; simp [csPfx] at h
  | cons p ps ih =>
    intro re2 st k caps h
    cases hst : st.rest with
    | nil =>
      have hred : matchRE ((p :: ps).foldr (fun c r => RE.seq (lit c) r) re2) k st caps =
          matchRE (.cls (fun x => x == p))
            (fun a b => matchRE (ps.foldr (fun c r => RE.seq (lit c) r) re2) k a b)
            st caps := rfl
      rw [hred, matchRE, hst]
    | cons c cs =>
      rw [hst] at h
      have h' : (c == p && csPfx ps cs) = false := h
      have hred : matchRE ((p :: ps).foldr (fun c r => RE.seq (lit c) r) re2) k st caps =
          matchRE (.cls (fun x => x == p))
            (fun a b => matchRE (ps.foldr (fun c r => RE.seq (lit c) r) re2) k a b)
            st caps := rfl
      rw [hred, matchRE, hst]
      show (if (c == p) = true then
          matchRE (ps.foldr (fun c r => RE.seq (lit c) r) re2) k ⟨cs, some c⟩ caps
        else none) = none
      by_cases hc : (c == p) = true
      · rw [if_pos hc]
        exact ih re2 ⟨cs, some c⟩ k caps (by simpa [hc] using h')
      · rw [if_neg hc]

lemma kwStart_parts {t : List Char} (h : kwStart t = false) :
    ciPfx (chs "Name") t = false ∧ ciPfx (chs "Sire") t = false ∧
      ciPfx (chs "Dam") t = false := by
  rw [kwStart] at h
  simp only [Bool.or_eq_false_iff] at h
  exact ⟨h.1.1, h.1.2, h.2⟩

lemma kwAlt_none {t : List Char} {pv : Option Char}
    {k : MState → Caps → Option (MState × Caps)} {caps : Caps}
    (h : kwStart t = false) : matchRE kwAlt k ⟨t, pv⟩ caps = none := by
  obtain ⟨h1, h2, h3⟩ := kwStart_parts h
  have e1 : matchRE (strCI "Name") k ⟨t, pv⟩ caps = none :=
    litiRun_none (chs "Name") .eps ⟨t, pv⟩ k caps h1
  have e2 : matchRE (strCI "Sire") k ⟨t, pv⟩ caps = none :=
    litiRun_none (chs "Sire") .eps ⟨t, pv⟩ k caps h2
  have e3 : matchRE (strCI "Dam") k ⟨t, pv⟩ caps = none :=
    litiRun_none (chs "Dam") .eps ⟨t, pv⟩ k caps h3
  rw [kwAlt, matchRE, e1, matchRE, e2, e3]
  rfl

lemma markerRe_none {t : List Char} {pv : Option Char} (h : kwStart t = false) :
    matchFrom markerRe ⟨t, pv⟩ = none := by
  have hred : matchFrom markerRe ⟨t, pv⟩ =
      matchRE .wb (fun a b => matchRE (catRE [.group 1 kwAlt, .wb,
        .rep isWS 0 none false, .rep (fun c => c == ':') 0 (some 1) false])
        (fun s c => some (s, c)) a b) ⟨t, pv⟩ {} := rfl
  rw [hred, matchRE]
  split
  · exact kwAlt_none h
  · rfl

lemma splitMark_none {t : List Char} {pv : Option Char} (h : markStart t = false) :
    matchFrom splitMarkRe ⟨t, pv⟩ = none := by
  have hred : matchFrom splitMarkRe ⟨t, pv⟩ =
      matchRE ((chs "\n===").foldr (fun c r => RE.seq (lit c) r)
        (.seq (.rep isWS 0 none false) .eps)) (fun s c => some (s, c))
        ⟨t, pv⟩ {} := rfl
  rw [hred]
  exact litRun_none (chs "\n===") _ ⟨t, pv⟩ _ {} h

lemma replGo_nomatch (re : RE) (tmpl : Caps → List Char → List Char) :
    ∀ (rest : List Char) (pv : Option Char) (fuel : Nat),
      rest.length < fuel →
      (∀ t pv', t <:+ rest → matchFrom re ⟨t, pv'⟩ = none) →
      replGo re tmpl fuel rest pv = rest := by
  intro rest
  induction rest with
  | nil =>
    intro pv fuel hf hm
    cases fuel with
    | zero => omega
    | succ f =>
      rw [replGo, hm [] pv List.nil_suffix]
  | cons c cs ih =>
    intro pv fuel hf hm
    cases fuel with
    | zero => simp at hf
    | succ f =>
      rw [replGo, hm (c :: cs) pv (List.suffix_refl _)]
      rw [ih (some c) f (by simpa using hf)
        (fun t pv' ht => hm t pv' (ht.trans (List.suffix_cons c cs)))]

lemma splitGo_nomatch (re : RE) :
    ∀ (rest : List Char) (pv : Option Char) (fuel : Nat) (acc : List Char),
      rest.length < fuel →
      (∀ t pv', t <:+ rest → matchFrom re ⟨t, pv'⟩ = none) →
      splitGo re fuel rest pv acc = [acc.reverse ++ rest] := by
  intro rest
  induction rest with
  | nil =>
    intro pv fuel acc hf hm
    cases fuel with
    | zero => omega
    | succ f =>
      rw [splitGo, hm [] pv List.nil_suffix]
      simp
  | cons c cs ih =>
    intro pv fuel acc hf hm
    cases fuel with
    | zero => simp at hf
    | succ f =>
      rw [splitGo, hm (c :: cs) pv (List.suffix_refl _)]
      rw [ih (some c) f (c :: acc) (by simpa using hf)
        (fun t pv' ht => hm t pv' (ht.trans (List.suffix_cons c cs)))]
      simp

lemma ciPfx_append {w u : List Char} (v : List Char) (h : ciPfx w u = true) :
    ciPfx w (u ++ v) = true := by
  induction w generalizing u with
  | nil => rfl
  | cons p ps ih =>
    cases u with
    | nil => simp [ciPfx] at h
    | cons c cs =>
      have h' : (charCI p c && ciPfx ps cs) = true := h
      have h1 : charCI p c = true := by
        cases hb : charCI p c
        · rw [hb] at h'; simp at h'
        · rfl
      have h2 : ciPfx ps cs = true := by
        rw [h1] at h'; simpa using h'
      show (charCI p c && ciPfx ps (cs ++ v)) = true
      rw [h1, ih h2]
      rfl

lemma kwStart_append {u : List Char} (v : List Char) (h : kwStart (u ++ v) = false) :
    kwStart u = false := by
  cases hb : kwStart u
  · rfl
  · exfalso
    rw [kwStart] at hb h
    simp only [Bool.or_eq_false_iff] at h
    rcases Bool.or_eq_true_iff.mp hb with h1 | h1
    · rcases Bool.or_eq_true_iff.mp h1 with h2 | h2
      · rw [ciPfx_append v h2] at h; simp at h
      · rw [ciPfx_append v h2] at h; simp at h
    · rw [ciPfx_append v h1] at h; simp at h

/-- The whole trimmed input, with trailing whitespace glued back, is a
suffix of the input. -/
lemma jsTrim_append_suffix (s : List Char) :
    jsTrim s ++ ((List.dropWhile isWS s).reverse.takeWhile isWS).reverse <:+ s := by
  have hA : List.dropWhile isWS s <:+ s := List.dropWhile_suffix isWS
  have hsplit : jsTrim s ++ ((List.dropWhile isWS s).reverse.takeWhile isWS).reverse =
      List.dropWhile isWS s := by
    rw [jsTrim]
    rw [← List.reverse_append]
    rw [List.takeWhile_append_dropWhile]
    rw [List.reverse_reverse]
  rw [hsplit]
  exact hA

lemma kwStart_jsTrim {s : List Char} (h : ∀ t ∈ s.tails, kwStart t = false) :
    kwStart (jsTrim s) = false := by
  have hsuf := jsTrim_append_suffix s
  have := h _ ((List.mem_tails _ _).mpr hsuf)
  exact kwStart_append _ this

lemma matchFrom_roleRe_none {u : List Char} (h : kwStart u = false) :
    matchFrom roleRe ⟨u, none⟩ = none := by
  have hred : matchFrom roleRe ⟨u, none⟩ =
      matchRE kwAlt
        (fun a b => matchRE (catRE [.rep isWS 0 none false, lit '=', lit '=',
          .rep (fun c => c == '=') 0 (some 1) false, .rep isWS 0 none false])
          (fun s c => some (s, c)) a
          ((b.set 2 (u.take (u.length - a.rest.length))).set 1
            (u.take (u.length - a.rest.length)))) ⟨u, none⟩ {} := rfl
  rw [hred]
  exact kwAlt_none h

lemma jsSearch_roleRe_none {u : List Char} (h : kwStart u = false) :
    jsSearch roleRe u = none := by
  cases u with
  | nil =>
    rw [jsSearch, searchAux, matchFrom_roleRe_none h]
  | cons c cs =>
    rw [jsSearch, searchAux, matchFrom_roleRe_none h]
    have hshape : roleRe = RE.seq .bol (catRE [.group 1 (.group 2 kwAlt),
        .rep isWS 0 none false, lit '=', lit '=',
        .rep (fun c => c == '=') 0 (some 1) false, .rep isWS 0 none false]) := rfl
    rw [hshape]
    exact searchAux_seq_bol _ cs c

lemma matchFrom_nameStartRe_none {u : List Char} (h : kwStart u = false) :
    matchFrom nameStartRe ⟨u, none⟩ = none := by
  obtain ⟨h1, _, _⟩ := kwStart_parts h
  have hred : matchFrom nameStartRe ⟨u, none⟩ =
      matchRE ((chs "Name").foldr (fun c r => RE.seq (liti c) r)
        (.seq (.cls wsColon) .eps)) (fun s c => some (s, c)) ⟨u, none⟩ {} := rfl
  rw [hred]
  exact litiRun_none (chs "Name") _ ⟨u, none⟩ _ {} h1

lemma jsTest_nameStartRe_false {u : List Char} (h : kwStart u = false) :
    jsTest nameStartRe u = false := by
  rw [jsTest]
  cases u with
  | nil =>
    rw [jsSearch, searchAux, matchFrom_nameStartRe_none h]
    rfl
  | cons c cs =>
    rw [jsSearch, searchAux, matchFrom_nameStartRe_none h]
    have hshape : nameStartRe = RE.seq .bol (catRE [strCI "Name", .cls wsColon]) := rfl
    rw [hshape, searchAux_seq_bol]
    rfl

/-- Claim C8, amended.  Every input with no occurrence (in any letter case)
of the letter sequences name/sire/dam, no occurrence of the delimiter
sequence made of a newline followed by three equals signs, and a nonblank
trimmed content, segments into exactly one UNKNOWN block holding the whole
trimmed input. -/
theorem C8_segmenter_unknown_amended (s : List Char)
    (h1 : ∀ t ∈ s.tails, kwStart t = false)
    (h2 : ∀ t ∈ s.tails, markStart t = false)
    (h3 : jsTrim s ≠ []) :
    segmentRabbits s = [⟨chs "UNKNOWN", jsTrim s⟩] := by
  have hmark : jsReplaceAll markerRe markerT s = s := by
    rw [jsReplaceAll]
    exact replGo_nomatch markerRe markerT s none (s.length + 1) (by omega)
      (fun t pv ht => markerRe_none (h1 t ((List.mem_tails _ _).mpr ht)))
  have hsplit : jsSplit splitMarkRe s = [s] := by
    rw [jsSplit]
    rw [splitGo_nomatch splitMarkRe s none (s.length + 1) [] (by omega)
      (fun t pv ht => splitMark_none (h2 t ((List.mem_tails _ _).mpr ht)))]
    simp
  have hkw : kwStart (jsTrim s) = false := kwStart_jsTrim h1
  simp only [segmentRabbits]
  rw [hmark, hsplit]
  simp only [List.map_cons, List.map_nil]
  rw [show List.filter (fun x => !x.isEmpty) [jsTrim s] = [jsTrim s] from by
    simp [List.isEmpty_iff, h3]]
  simp only [List.map_cons, List.map_nil, classifyChunk,
    jsSearch_roleRe_none hkw, jsTest_nameStartRe_false hkw]
  simp [rankSort, rankInsert]

/-- Witness for C8: the amended theorem applied to the concrete input
`"hello world"`. -/
theorem C8_segmenter_unknown_amended_witness :
    segmentRabbits (chs "hello world") =
      [⟨chs "UNKNOWN", jsTrim (chs "hello world")⟩] :=
  C8_segmenter_unknown_amended (chs "hello world") (by decide) (by decide)
    (by decide)

/-! ### C7: the marker/split/classify pipeline on a one-rabbit pedigree

The lemmas below compute `segmentRabbits` on the input family
`"Name: " ++ a ++ " Sire: " ++ b ++ " Dam: " ++ c` where `a`, `b`, `c`
contain only characters that cannot start a role keyword, form the marker
delimiter or interfere with the inserted markers (`safeCh`): first the
marker replacement (`marked_eq`), then the split on the inserted
delimiters (`split_marked`), then trimming (`trim_chunk`) and per-chunk
classification (`classify_trim_Name` and friends). -/

lemma repM_hi0 (p : Char → Bool) (k : MState → Caps → Option (MState × Caps))
    (lo : Nat) (lz : Bool) (rest : List Char) (prev : Option Char) (caps : Caps) :
    repM p k lo (some 0) lz rest prev caps =
      if lo = 0 then k ⟨rest, prev⟩ caps else none := by
  cases rest <;> simp [repM]

lemma marker_at_Name (Y : List Char) (pv : Option Char) (hpv : isWordOpt pv = false) :
    matchFrom markerRe ⟨chs "Name:" ++ Y, pv⟩ =
      some (⟨Y, some ':'⟩, ⟨some (chs "Name"), none, none⟩) := by
  have hL : chs "Name:" ++ Y = 'N' :: 'a' :: 'm' :: 'e' :: ':' :: Y := rfl
  rw [hL]
  cases pv with
  | none =>
    simp [matchFrom, markerRe, catRE, kwAlt, strCI, liti, lit, matchRE, repM,
      repM_hi0, oalt, charCI, isWordOpt, isWordChar, isWS, Caps.set, chs]
  | some c =>
    have hc : isWordChar c = false := by simpa [isWordOpt] using hpv
    simp [matchFrom, markerRe, catRE, kwAlt, strCI, liti, lit, matchRE, repM,
      repM_hi0, oalt, charCI, isWordOpt, isWS, Caps.set, chs, hc,
      show isWordChar 'N' = true from by decide,
      show isWordChar 'e' = true from by decide,
      show isWordChar ':' = false from by decide]

lemma marker_at_Sire (Y : List Char) (pv : Option Char) (hpv : isWordOpt pv = false) :
    matchFrom markerRe ⟨chs "Sire:" ++ Y, pv⟩ =
      some (⟨Y, some ':'⟩, ⟨some (chs "Sire"), none, none⟩) := by
  have hL : chs "Sire:" ++ Y = 'S' :: 'i' :: 'r' :: 'e' :: ':' :: Y := rfl
  rw [hL]
  cases pv with
  | none =>
    simp [matchFrom, markerRe, catRE, kwAlt, strCI, liti, lit, matchRE, repM,
      repM_hi0, oalt, charCI, isWordOpt, isWordChar, isWS, Caps.set, chs]
  | some c =>
    have hc : isWordChar c = false := by simpa [isWordOpt] using hpv
    simp [matchFrom, markerRe, catRE, kwAlt, strCI, liti, lit, matchRE, repM,
      repM_hi0, oalt, charCI, isWordOpt, isWS, Caps.set, chs, hc,
      show isWordChar 'S' = true from by decide,
      show isWordChar 'e' = true from by decide,
      show isWordChar ':' = false from by decide]

lemma marker_at_Dam (Y : List Char) (pv : Option Char) (hpv : isWordOpt pv = false) :
    matchFrom markerRe ⟨chs "Dam:" ++ Y, pv⟩ =
      some (⟨Y, some ':'⟩, ⟨some (chs "Dam"), none, none⟩) := by
  have hL : chs "Dam:" ++ Y = 'D' :: 'a' :: 'm' :: ':' :: Y := rfl
  rw [hL]
  cases pv with
  | none =>
    simp [matchFrom, markerRe, catRE, kwAlt, strCI, liti, lit, matchRE, repM,
      repM_hi0, oalt, charCI, isWordOpt, isWordChar, isWS, Caps.set, chs]
  | some c =>
    have hc : isWordChar c = false := by simpa [isWordOpt] using hpv
    simp [matchFrom, markerRe, catRE, kwAlt, strCI, liti, lit, matchRE, repM,
      repM_hi0, oalt, charCI, isWordOpt, isWS, Caps.set, chs, hc,
      show isWordChar 'D' = true from by decide,
      show isWordChar 'm' = true from by decide,
      show isWordChar ':' = false from by decide]

lemma lastPrev_cons (x : Char) (xs : List Char) (pv : Option Char) :
    lastPrev (x :: xs) pv = lastPrev xs (some x) := by
  rw [lastPrev, lastPrev, List.reverse_cons]
  cases hxs : xs.reverse with
  | nil => simp
  | cons c t => simp

lemma replGo_succ (re : RE) (tmpl : Caps → List Char → List Char) (f : Nat)
    (rest : List Char) (pv : Option Char) :
    replGo re tmpl (f + 1) rest pv =
      match matchFrom re ⟨rest, pv⟩ with
      | some (e, caps) =>
        if e.rest.length < rest.length then
          tmpl caps (consumedTxt ⟨rest, pv⟩ e) ++ replGo re tmpl f e.rest e.prev
        else
          match rest with
          | [] => []
          | c :: cs => c :: replGo re tmpl f cs (some c)
      | none =>
        match rest with
        | [] => []
        | c :: cs => c :: replGo re tmpl f cs (some c) := rfl

lemma replGo_fuel (re : RE) (tmpl : Caps → List Char → List Char) :
    ∀ (fuel₁ : Nat) (rest : List Char) (pv : Option Char) (fuel₂ : Nat),
      rest.length < fuel₁ → rest.length < fuel₂ →
      replGo re tmpl fuel₁ rest pv = replGo re tmpl fuel₂ rest pv := by
  intro fuel₁
  induction fuel₁ with
  | zero => intro rest pv fuel₂ h1 h2; omega
  | succ f ih =>
    intro rest pv fuel₂ h1 h2
    cases fuel₂ with
    | zero => omega
    | succ f₂ =>
      rw [replGo_succ, replGo_succ]
      cases hm : matchFrom re ⟨rest, pv⟩ with
      | some x =>
        obtain ⟨e, caps⟩ := x
        dsimp only
        by_cases hl : e.rest.length < rest.length
        · rw [if_pos hl, if_pos hl, ih e.rest e.prev f₂ (by omega) (by omega)]
        · rw [if_neg hl, if_neg hl]
          cases rest with
          | nil => rfl
          | cons c cs =>
            dsimp only
            rw [ih cs (some c) f₂ (by simp at h1; omega) (by simp at h2; omega)]
      | none =>
        dsimp only
        cases rest with
        | nil => rfl
        | cons c cs =>
          dsimp only
          rw [ih cs (some c) f₂ (by simp at h1; omega) (by simp at h2; omega)]

lemma replGo_skip (re : RE) (tmpl : Caps → List Char → List Char) :
    ∀ (u v : List Char) (pv : Option Char) (fuel : Nat),
      u.length + v.length < fuel →
      (∀ t pv', t ≠ [] → t <:+ u → matchFrom re ⟨t ++ v, pv'⟩ = none) →
      replGo re tmpl fuel (u ++ v) pv =
        u ++ replGo re tmpl (fuel - u.length) v (lastPrev u pv) := by
  intro u
  induction u with
  | nil =>
    intro v pv fuel hf hm
    simp [lastPrev]
  | cons x xs ih =>
    intro v pv fuel hf hm
    cases fuel with
    | zero => omega
    | succ f =>
      have hmx := hm (x :: xs) pv (by simp) (List.suffix_refl _)
      rw [List.cons_append] at hmx
      rw [List.cons_append, replGo_succ, hmx]
      dsimp only
      rw [ih v (some x) f (by simp at hf ⊢; omega)
        (fun t pv' ht hts => hm t pv' ht (hts.trans (List.suffix_cons x xs)))]
      rw [lastPrev_cons]
      simp only [List.cons_append, List.length_cons]
      have harith : f + 1 - (xs.length + 1) = f - xs.length := by omega
      rw [harith]

lemma kwStart_cons_safe {x : Char} {l : List Char} (hx : safeCh x = true) :
    kwStart (x :: l) = false := by
  simp only [safeCh, Bool.not_eq_true', Bool.or_eq_false_iff,
    beq_eq_false_iff_ne] at hx
  obtain ⟨⟨⟨⟨⟨⟨⟨hn, hN⟩, hs⟩, hS⟩, hd⟩, hD⟩, he⟩, hnl⟩ := hx
  have cN : charCI 'N' x = false := by
    simp [charCI, show Char.toLower 'N' = 'n' from rfl,
      show Char.toUpper 'N' = 'N' from rfl]
    exact ⟨hn, hN⟩
  have cS : charCI 'S' x = false := by
    simp [charCI, show Char.toLower 'S' = 's' from rfl,
      show Char.toUpper 'S' = 'S' from rfl]
    exact ⟨hs, hS⟩
  have cD : charCI 'D' x = false := by
    simp [charCI, show Char.toLower 'D' = 'd' from rfl,
      show Char.toUpper 'D' = 'D' from rfl]
    exact ⟨hd, hD⟩
  rw [kwStart]
  have e1 : ciPfx (chs "Name") (x :: l) = false := by
    show (charCI 'N' x && ciPfx (chs "ame") l) = false
    rw [cN]; rfl
  have e2 : ciPfx (chs "Sire") (x :: l) = false := by
    show (charCI 'S' x && ciPfx (chs "ire") l) = false
    rw [cS]; rfl
  have e3 : ciPfx (chs "Dam") (x :: l) = false := by
    show (charCI 'D' x && ciPfx (chs "am") l) = false
    rw [cD]; rfl
  rw [e1, e2, e3]
  rfl

lemma lastPrev_concat (w : List Char) (x : Char) (pv : Option Char) :
    lastPrev (w ++ [x]) pv = some x := by
  rw [lastPrev, List.reverse_append]
  rfl

lemma marker_skip_hyp {u : List Char} (hu : ∀ ch ∈ u, safeCh ch = true)
    (v : List Char) :
    ∀ (t : List Char) (pv' : Option Char), t ≠ [] → t <:+ u →
      matchFrom markerRe ⟨t ++ v, pv'⟩ = none := by
  intro t pv' ht hts
  cases t with
  | nil => exact absurd rfl ht
  | cons x ts =>
    have hx : safeCh x = true := hu x (hts.subset (by simp))
    exact markerRe_none (kwStart_cons_safe hx)

lemma replGo_name_seg (rest : List Char) (fuel : Nat) (pv : Option Char)
    (hpv : isWordOpt pv = false)
    (hf : (chs "Name:" ++ rest).length < fuel) :
    replGo markerRe markerT fuel (chs "Name:" ++ rest) pv =
      chs "\n=== Name ===\n" ++
        replGo markerRe markerT (fuel - 5) rest (some ':') := by
  obtain ⟨f, rfl⟩ : ∃ f, fuel = f + 1 := ⟨fuel - 1, by omega⟩
  rw [replGo_succ, marker_at_Name rest pv hpv]
  dsimp only
  rw [if_pos (by simp [chs]; try omega)]
  have hlen : rest.length < f ∧ rest.length < f + 1 - 5 := by
    simp [chs] at hf; omega
  rw [replGo_fuel markerRe markerT f rest (some ':') (f + 1 - 5) hlen.1 hlen.2]
  rfl

lemma replGo_sire_seg (rest : List Char) (fuel : Nat) (pv : Option Char)
    (hpv : isWordOpt pv = false)
    (hf : (chs "Sire:" ++ rest).length < fuel) :
    replGo markerRe markerT fuel (chs "Sire:" ++ rest) pv =
      chs "\n=== Sire ===\n" ++
        replGo markerRe markerT (fuel - 5) rest (some ':') := by
  obtain ⟨f, rfl⟩ : ∃ f, fuel = f + 1 := ⟨fuel - 1, by omega⟩
  rw [replGo_succ, marker_at_Sire rest pv hpv]
  dsimp only
  rw [if_pos (by simp [chs]; try omega)]
  have hlen : rest.length < f ∧ rest.length < f + 1 - 5 := by
    simp [chs] at hf; omega
  rw [replGo_fuel markerRe markerT f rest (some ':') (f + 1 - 5) hlen.1 hlen.2]
  rfl

lemma replGo_dam_seg (rest : List Char) (fuel : Nat) (pv : Option Char)
    (hpv : isWordOpt pv = false)
    (hf : (chs "Dam:" ++ rest).length < fuel) :
    replGo markerRe markerT fuel (chs "Dam:" ++ rest) pv =
      chs "\n=== Dam ===\n" ++
        replGo markerRe markerT (fuel - 4) rest (some ':') := by
  obtain ⟨f, rfl⟩ : ∃ f, fuel = f + 1 := ⟨fuel - 1, by omega⟩
  rw [replGo_succ, marker_at_Dam rest pv hpv]
  dsimp only
  rw [if_pos (by simp [chs]; try omega)]
  have hlen : rest.length < f ∧ rest.length < f + 1 - 4 := by
    simp [chs] at hf; omega
  rw [replGo_fuel markerRe markerT f rest (some ':') (f + 1 - 4) hlen.1 hlen.2]
  rfl

lemma marker_nomatch_safe {u : List Char} (hu : ∀ ch ∈ u, safeCh ch = true) :
    ∀ (t : List Char) (pv' : Option Char), t <:+ u →
      matchFrom markerRe ⟨t, pv'⟩ = none := by
  intro t pv' hts
  cases t with
  | nil => exact markerRe_none rfl
  | cons x ts =>
    have hx : safeCh x = true := hu x (hts.subset (by simp))
    exact markerRe_none (kwStart_cons_safe hx)

lemma marked_eq (a b c : List Char)
    (ha : ∀ ch ∈ a, safeCh ch = true) (hb : ∀ ch ∈ b, safeCh ch = true)
    (hc : ∀ ch ∈ c, safeCh ch = true) :
    jsReplaceAll markerRe markerT
        (chs "Name: " ++ a ++ chs " Sire: " ++ b ++ chs " Dam: " ++ c) =
      chs "\n=== Name ===\n" ++ ((' ' :: (a ++ [' '])) ++
        (chs "\n=== Sire ===\n" ++ ((' ' :: (b ++ [' '])) ++
          (chs "\n=== Dam ===\n" ++ (' ' :: c))))) := by
  have hu1 : ∀ ch ∈ ' ' :: (a ++ [' ']), safeCh ch = true := by
    intro ch hch
    rcases List.mem_cons.mp hch with h | h
    · rw [h]; decide
    · rcases List.mem_append.mp h with h' | h'
      · exact ha ch h'
      · rw [List.mem_singleton.mp h']; decide
  have hu2 : ∀ ch ∈ ' ' :: (b ++ [' ']), safeCh ch = true := by
    intro ch hch
    rcases List.mem_cons.mp hch with h | h
    · rw [h]; decide
    · rcases List.mem_append.mp h with h' | h'
      · exact hb ch h'
      · rw [List.mem_singleton.mp h']; decide
  have hu3 : ∀ ch ∈ ' ' :: c, safeCh ch = true := by
    intro ch hch
    rcases List.mem_cons.mp hch with h | h
    · rw [h]; decide
    · exact hc ch h
  have hs : chs "Name: " ++ a ++ chs " Sire: " ++ b ++ chs " Dam: " ++ c =
      chs "Name:" ++ ((' ' :: (a ++ [' '])) ++
        (chs "Sire:" ++ ((' ' :: (b ++ [' '])) ++
          (chs "Dam:" ++ (' ' :: c))))) := by
    simp [chs, List.append_assoc]
  rw [jsReplaceAll, hs]
  rw [replGo_name_seg _ _ none rfl (by simp [chs]; try omega)]
  rw [replGo_skip markerRe markerT (' ' :: (a ++ [' '])) _ (some ':') _
    (by simp [chs]; try omega) (marker_skip_hyp hu1 _)]
  rw [show lastPrev (' ' :: (a ++ [' '])) (some ':') = some ' ' from by
    rw [show (' ' :: (a ++ [' '])) = (' ' :: a) ++ [' '] from by simp,
      lastPrev_concat]]
  rw [replGo_sire_seg _ _ _ (by decide) (by simp [chs]; try omega)]
  rw [replGo_skip markerRe markerT (' ' :: (b ++ [' '])) _ (some ':') _
    (by simp [chs]; try omega) (marker_skip_hyp hu2 _)]
  rw [show lastPrev (' ' :: (b ++ [' '])) (some ':') = some ' ' from by
    rw [show (' ' :: (b ++ [' '])) = (' ' :: b) ++ [' '] from by simp,
      lastPrev_concat]]
  rw [replGo_dam_seg _ _ _ (by decide) (by simp [chs]; try omega)]
  rw [replGo_nomatch markerRe markerT (' ' :: c) (some ':') _
    (by simp [chs]; try omega) (fun t pv' ht => marker_nomatch_safe hu3 t pv' ht)]

lemma repM_star_final (p : Char → Bool) :
    ∀ (rest : List Char) (prev : Option Char) (caps : Caps),
      repM p (fun s c => some (s, c)) 0 none false rest prev caps =
        some (⟨rest.dropWhile p, lastPrev (rest.takeWhile p) prev⟩, caps) := by
  intro rest
  induction rest with
  | nil => intro prev caps; simp [repM, lastPrev]
  | cons x xs ih =>
    intro prev caps
    by_cases hx : p x
    · rw [repM]
      simp [hx, Nat.zero_sub, Option.map_none', ih, oalt, lastPrev_cons,
        List.dropWhile_cons, List.takeWhile_cons]
    · rw [repM]
      simp [hx, List.dropWhile_cons, List.takeWhile_cons, lastPrev]

lemma splitGo_succ (re : RE) (f : Nat) (rest : List Char) (pv : Option Char)
    (acc : List Char) :
    splitGo re (f + 1) rest pv acc =
      match matchFrom re ⟨rest, pv⟩ with
      | some (e, _) =>
        if e.rest.length < rest.length then
          acc.reverse :: splitGo re f e.rest e.prev []
        else
          match rest with
          | [] => [acc.reverse]
          | c :: cs => splitGo re f cs (some c) (acc.cons c)
      | none =>
        match rest with
        | [] => [acc.reverse]
        | c :: cs => splitGo re f cs (some c) (acc.cons c) := rfl

lemma splitGo_fuel (re : RE) :
    ∀ (fuel₁ : Nat) (rest : List Char) (pv : Option Char) (acc : List Char)
      (fuel₂ : Nat),
      rest.length < fuel₁ → rest.length < fuel₂ →
      splitGo re fuel₁ rest pv acc = splitGo re fuel₂ rest pv acc := by
  intro fuel₁
  induction fuel₁ with
  | zero => intro rest pv acc fuel₂ h1 h2; omega
  | succ f ih =>
    intro rest pv acc fuel₂ h1 h2
    cases fuel₂ with
    | zero => omega
    | succ f₂ =>
      rw [splitGo_succ, splitGo_succ]
      cases hm : matchFrom re ⟨rest, pv⟩ with
      | some x =>
        obtain ⟨e, caps⟩ := x
        dsimp only
        by_cases hl : e.rest.length < rest.length
        · rw [if_pos hl, if_pos hl, ih e.rest e.prev [] f₂ (by omega) (by omega)]
        · rw [if_neg hl, if_neg hl]
          cases rest with
          | nil => rfl
          | cons c cs =>
            dsimp only
            rw [ih cs (some c) (acc.cons c) f₂ (by simp at h1; omega)
              (by simp at h2; omega)]
      | none =>
        dsimp only
        cases rest with
        | nil => rfl
        | cons c cs =>
          dsimp only
          rw [ih cs (some c) (acc.cons c) f₂ (by simp at h1; omega)
            (by simp at h2; omega)]

lemma splitGo_skip (re : RE) :
    ∀ (u v : List Char) (pv : Option Char) (acc : List Char) (fuel : Nat),
      u.length + v.length < fuel →
      (∀ t pv', t ≠ [] → t <:+ u → matchFrom re ⟨t ++ v, pv'⟩ = none) →
      splitGo re fuel (u ++ v) pv acc =
        splitGo re (fuel - u.length) v (lastPrev u pv) (u.reverse ++ acc) := by
  intro u
  induction u with
  | nil =>
    intro v pv acc fuel hf hm
    simp [lastPrev]
  | cons x xs ih =>
    intro v pv acc fuel hf hm
    cases fuel with
    | zero => omega
    | succ f =>
      have hmx := hm (x :: xs) pv (by simp) (List.suffix_refl _)
      rw [List.cons_append] at hmx
      rw [List.cons_append, splitGo_succ, hmx]
      dsimp only
      rw [ih v (some x) (acc.cons x) f (by simp at hf ⊢; omega)
        (fun t pv' ht hts => hm t pv' ht (hts.trans (List.suffix_cons x xs)))]
      rw [lastPrev_cons]
      simp only [List.length_cons, List.reverse_cons]
      have harith : f + 1 - (xs.length + 1) = f - xs.length := by omega
      rw [harith, List.append_assoc]
      rfl

lemma splitGo_nil (fuel : Nat) (pv : Option Char) (acc : List Char)
    (hf : 0 < fuel) :
    splitGo splitMarkRe fuel [] pv acc = [acc.reverse] := by
  obtain ⟨f, rfl⟩ : ∃ f, fuel = f + 1 := ⟨fuel - 1, by omega⟩
  have h0 : matchFrom splitMarkRe ⟨[], pv⟩ = none := splitMark_none rfl
  rw [splitGo_succ, h0]

lemma markStart_cons_ne {x : Char} (l : List Char) (hx : (x == '\n') = false) :
    markStart (x :: l) = false := by
  rw [markStart]
  show (x == '\n' && csPfx (chs "===") l) = false
  rw [hx]
  rfl

lemma splitMark_nl_ne {x : Char} (R : List Char) (pv : Option Char)
    (hx : (x == '=') = false) :
    matchFrom splitMarkRe ⟨'\n' :: x :: R, pv⟩ = none := by
  simp [matchFrom, splitMarkRe, catRE, lit, matchRE, hx]

lemma splitMark_skip_no_nl {u : List Char} (hu : ∀ x ∈ u, (x == '\n') = false)
    (v : List Char) :
    ∀ (t : List Char) (pv' : Option Char), t ≠ [] → t <:+ u →
      matchFrom splitMarkRe ⟨t ++ v, pv'⟩ = none := by
  intro t pv' ht hts
  cases t with
  | nil => exact absurd rfl ht
  | cons x ts =>
    have hx : (x == '\n') = false := hu x (hts.subset (by simp))
    exact splitMark_none (markStart_cons_ne _ hx)

lemma splitMark_skip_nl {w : List Char} (hw : ∀ x ∈ w, (x == '\n') = false)
    (v : List Char) :
    ∀ (t : List Char) (pv' : Option Char), t ≠ [] → t <:+ ('\n' :: ' ' :: w) →
      matchFrom splitMarkRe ⟨t ++ v, pv'⟩ = none := by
  intro t pv' ht hts
  rcases List.suffix_cons_iff.mp hts with h | h
  · subst h
    exact splitMark_nl_ne _ _ (by decide)
  · rcases List.suffix_cons_iff.mp h with h' | h'
    · subst h'
      exact splitMark_none (markStart_cons_ne _ (by decide))
    · cases t with
      | nil => exact absurd rfl ht
      | cons x ts =>
        have hx : (x == '\n') = false := hw x (h'.subset (by simp))
        exact splitMark_none (markStart_cons_ne _ hx)

lemma splitMark_at (W : List Char) (pv : Option Char)
    (hW : ∀ z, W.head? = some z → isWS z = false) :
    matchFrom splitMarkRe ⟨chs "\n=== " ++ W, pv⟩ =
      some (⟨W, some ' '⟩, ⟨none, none, none⟩) := by
  cases W with
  | nil =>
    have hL : chs "\n=== " ++ ([] : List Char) =
        '\n' :: '=' :: '=' :: '=' :: [' '] := rfl
    rw [hL]
    simp [matchFrom, splitMarkRe, catRE, lit, matchRE, repM, oalt,
      show isWS ' ' = true from by decide]
  | cons z Z =>
    have hz : isWS z = false := hW z rfl
    have hL : chs "\n=== " ++ (z :: Z) =
        '\n' :: '=' :: '=' :: '=' :: ' ' :: z :: Z := rfl
    rw [hL]
    simp [matchFrom, splitMarkRe, catRE, lit, matchRE, repM, oalt, hz,
      show isWS ' ' = true from by decide]

lemma splitGo_delim (W : List Char) (pv : Option Char) (acc : List Char)
    (fuel : Nat) (hW : ∀ z, W.head? = some z → isWS z = false)
    (hf : (chs "\n=== " ++ W).length < fuel) :
    splitGo splitMarkRe fuel (chs "\n=== " ++ W) pv acc =
      acc.reverse :: splitGo splitMarkRe (fuel - 5) W (some ' ') [] := by
  obtain ⟨f, rfl⟩ : ∃ f, fuel = f + 1 := ⟨fuel - 1, by omega⟩
  rw [splitGo_succ, splitMark_at W pv hW]
  dsimp only
  rw [if_pos (by simp [chs]; try omega)]
  have hlen : W.length < f ∧ W.length < f + 1 - 5 := by
    simp [chs] at hf ⊢; omega
  rw [splitGo_fuel splitMarkRe f W (some ' ') [] (f + 1 - 5) hlen.1 hlen.2]

lemma splitGo_section (K w W : List Char) (pv : Option Char) (acc : List Char)
    (fuel : Nat) (hK : ∀ x ∈ K, (x == '\n') = false)
    (hw : ∀ x ∈ w, (x == '\n') = false)
    (hW : ∀ z, W.head? = some z → isWS z = false)
    (hf : K.length + (w.length + 2) + (5 + W.length) < fuel) :
    splitGo splitMarkRe fuel (K ++ (('\n' :: ' ' :: w) ++ (chs "\n=== " ++ W)))
        pv acc =
      (acc.reverse ++ (K ++ ('\n' :: ' ' :: w))) ::
        splitGo splitMarkRe (fuel - (K.length + (w.length + 2)) - 5) W
          (some ' ') [] := by
  rw [splitGo_skip splitMarkRe K (('\n' :: ' ' :: w) ++ (chs "\n=== " ++ W))
    pv acc fuel (by simp [chs]; omega)
    (splitMark_skip_no_nl hK _)]
  rw [splitGo_skip splitMarkRe ('\n' :: ' ' :: w) (chs "\n=== " ++ W)
    (lastPrev K pv) (K.reverse ++ acc) (fuel - K.length)
    (by simp [chs]; omega)
    (splitMark_skip_nl hw _)]
  rw [splitGo_delim W _ _ _ hW (by simp [chs]; try omega)]
  have harith : fuel - K.length - ('\n' :: ' ' :: w).length - 5 =
      fuel - (K.length + (w.length + 2)) - 5 := by simp; omega
  rw [harith]
  congr 1
  simp [List.reverse_cons, List.reverse_append]

lemma splitGo_last (K w : List Char) (pv : Option Char) (acc : List Char)
    (fuel : Nat) (hK : ∀ x ∈ K, (x == '\n') = false)
    (hw : ∀ x ∈ w, (x == '\n') = false)
    (hf : K.length + (w.length + 2) < fuel) :
    splitGo splitMarkRe fuel (K ++ ('\n' :: ' ' :: w)) pv acc =
      [acc.reverse ++ (K ++ ('\n' :: ' ' :: w))] := by
  rw [splitGo_skip splitMarkRe K ('\n' :: ' ' :: w) pv acc fuel
    (by simp; omega) (splitMark_skip_no_nl hK _)]
  rw [show ('\n' :: ' ' :: w) = ('\n' :: ' ' :: w) ++ [] from by simp]
  rw [splitGo_skip splitMarkRe ('\n' :: ' ' :: w) [] (lastPrev K pv)
    (K.reverse ++ acc) (fuel - K.length) (by simp; omega)
    (splitMark_skip_nl hw [])]
  rw [splitGo_nil _ _ _ (by simp; omega)]
  congr 1
  simp [List.reverse_cons, List.reverse_append]

lemma safeCh_ne_nl {x : Char} (hx : safeCh x = true) : (x == '\n') = false := by
  simp only [safeCh, Bool.not_eq_true', Bool.or_eq_false_iff] at hx
  exact hx.2

lemma split_marked (a b c : List Char)
    (ha : ∀ ch ∈ a, safeCh ch = true) (hb : ∀ ch ∈ b, safeCh ch = true)
    (hc : ∀ ch ∈ c, safeCh ch = true) :
    jsSplit splitMarkRe
        (chs "\n=== Name ===\n" ++ ((' ' :: (a ++ [' '])) ++
          (chs "\n=== Sire ===\n" ++ ((' ' :: (b ++ [' '])) ++
            (chs "\n=== Dam ===\n" ++ (' ' :: c)))))) =
      [[], chs "Name ===\n " ++ (a ++ [' ']),
        chs "Sire ===\n " ++ (b ++ [' ']),
        chs "Dam ===\n " ++ c] := by
  have hw1 : ∀ x ∈ a ++ [' '], (x == '\n') = false := by
    intro x hx
    rcases List.mem_append.mp hx with h | h
    · exact safeCh_ne_nl (ha x h)
    · rw [List.mem_singleton.mp h]; decide
  have hw2 : ∀ x ∈ b ++ [' '], (x == '\n') = false := by
    intro x hx
    rcases List.mem_append.mp hx with h | h
    · exact safeCh_ne_nl (hb x h)
    · rw [List.mem_singleton.mp h]; decide
  have hw3 : ∀ x ∈ c, (x == '\n') = false := fun x hx => safeCh_ne_nl (hc x hx)
  rw [jsSplit]
  rw [show chs "\n=== Name ===\n" ++ ((' ' :: (a ++ [' '])) ++
        (chs "\n=== Sire ===\n" ++ ((' ' :: (b ++ [' '])) ++
          (chs "\n=== Dam ===\n" ++ (' ' :: c))))) =
      chs "\n=== " ++
        (chs "Name ===" ++ (('\n' :: ' ' :: (a ++ [' '])) ++
          (chs "\n=== " ++
            (chs "Sire ===" ++ (('\n' :: ' ' :: (b ++ [' '])) ++
              (chs "\n=== " ++
                (chs "Dam ===" ++ ('\n' :: ' ' :: c)))))))) from rfl]
  rw [splitGo_delim _ _ _ _
    (fun z hz => by injection hz with h; subst h; decide)
    (by simp [chs]; try omega)]
  rw [splitGo_section (chs "Name ===") (a ++ [' '])
    (chs "Sire ===" ++ (('\n' :: ' ' :: (b ++ [' '])) ++
      (chs "\n=== " ++ (chs "Dam ===" ++ ('\n' :: ' ' :: c)))))
    _ _ _ (by decide) hw1
    (fun z hz => by injection hz with h; subst h; decide)
    (by simp [chs]; try omega)]
  rw [splitGo_section (chs "Sire ===") (b ++ [' '])
    (chs "Dam ===" ++ ('\n' :: ' ' :: c))
    _ _ _ (by decide) hw2
    (fun z hz => by injection hz with h; subst h; decide)
    (by simp [chs]; try omega)]
  rw [splitGo_last (chs "Dam ===") c _ _ _ (by decide) hw3
    (by simp [chs]; try omega)]
  rfl

lemma rdropWhile_cons_pos (p : Char → Bool) (x : Char) (l : List Char)
    (h : List.rdropWhile p l ≠ []) :
    List.rdropWhile p (x :: l) = x :: List.rdropWhile p l := by
  have h' : (l.reverse.dropWhile p).isEmpty = false := by
    rw [Bool.eq_false_iff]
    intro he
    apply h
    rw [List.rdropWhile, List.isEmpty_iff.mp he, List.reverse_nil]
  rw [List.rdropWhile, List.reverse_cons, List.dropWhile_append, h']
  simp [List.rdropWhile]

lemma rdropWhile_append_pos (p : Char → Bool) (X Y : List Char)
    (h : List.rdropWhile p Y ≠ []) :
    List.rdropWhile p (X ++ Y) = X ++ List.rdropWhile p Y := by
  have h' : (Y.reverse.dropWhile p).isEmpty = false := by
    rw [Bool.eq_false_iff]
    intro he
    apply h
    rw [List.rdropWhile, List.isEmpty_iff.mp he, List.reverse_nil]
  rw [List.rdropWhile, List.reverse_append, List.dropWhile_append, h']
  simp [List.rdropWhile, List.reverse_append]

lemma rdropWhile_append_nil (p : Char → Bool) (X Y : List Char)
    (h : ∀ y ∈ Y, p y = true) :
    List.rdropWhile p (X ++ Y) = List.rdropWhile p X := by
  have h' : Y.reverse.dropWhile p = [] := by
    rw [List.dropWhile_eq_nil_iff]
    intro y hy
    exact h y (List.mem_reverse.mp hy)
  rw [List.rdropWhile, List.reverse_append, List.dropWhile_append, h']
  simp [List.rdropWhile]

lemma dropWhile_rdropWhile_comm (p : Char → Bool) :
    ∀ l : List Char, List.dropWhile p (List.rdropWhile p l) =
      List.rdropWhile p (List.dropWhile p l) := by
  intro l
  induction l with
  | nil => simp [List.rdropWhile]
  | cons x xs ih =>
    by_cases hr : List.rdropWhile p xs = []
    · have hall : ∀ y ∈ xs, p y = true := List.rdropWhile_eq_nil_iff.mp hr
      have hxsnil : List.dropWhile p xs = [] := List.dropWhile_eq_nil_iff.mpr hall
      by_cases hx : p x
      · have hwhole : List.rdropWhile p (x :: xs) = [] := by
          rw [List.rdropWhile_eq_nil_iff]
          intro y hy
          rcases List.mem_cons.mp hy with h | h
          · rw [h]; exact hx
          · exact hall y h
        rw [hwhole, List.dropWhile_cons_of_pos hx, hxsnil]
        simp [List.rdropWhile]
      · have h1 : List.rdropWhile p (x :: xs) = [x] := by
          rw [show (x :: xs) = [x] ++ xs from rfl,
            rdropWhile_append_nil p [x] xs hall]
          simp [List.rdropWhile, hx]
        rw [List.dropWhile_cons_of_neg hx, h1]
        simp [hx]
    · have h1 : List.rdropWhile p (x :: xs) = x :: List.rdropWhile p xs :=
        rdropWhile_cons_pos p x xs hr
      by_cases hx : p x
      · rw [h1, List.dropWhile_cons_of_pos hx, ih, List.dropWhile_cons_of_pos hx]
      · rw [h1, List.dropWhile_cons_of_neg hx, List.dropWhile_cons_of_neg hx, h1]

lemma trim_chunk (k₀ : Char) (K' y : List Char) (hk₀ : isWS k₀ = false)
    (hKr : List.rdropWhile isWS (k₀ :: K') = k₀ :: K') :
    jsTrim ((k₀ :: K') ++ ('\n' :: ' ' :: y)) =
      if List.rdropWhile isWS y = [] then k₀ :: K'
      else (k₀ :: K') ++ ('\n' :: ' ' :: List.rdropWhile isWS y) := by
  rw [jsTrim_eq, List.cons_append,
    List.dropWhile_cons_of_neg (by rw [hk₀]; exact Bool.false_ne_true),
    ← List.cons_append]
  by_cases hy : List.rdropWhile isWS y = []
  · rw [if_pos hy]
    have hall : ∀ z ∈ ('\n' :: ' ' :: y), isWS z = true := by
      intro z hz
      rcases List.mem_cons.mp hz with h | h
      · rw [h]; decide
      · rcases List.mem_cons.mp h with h' | h'
        · rw [h']; decide
        · exact List.rdropWhile_eq_nil_iff.mp hy z h'
    rw [rdropWhile_append_nil _ _ _ hall, hKr]
  · rw [if_neg hy]
    have h2 : List.rdropWhile isWS ('\n' :: ' ' :: y) =
        '\n' :: ' ' :: List.rdropWhile isWS y := by
      rw [rdropWhile_cons_pos _ _ _ (by
          rw [rdropWhile_cons_pos _ _ _ hy]; exact List.cons_ne_nil _ _),
        rdropWhile_cons_pos _ _ _ hy]
    rw [rdropWhile_append_pos _ _ _ (by rw [h2]; exact List.cons_ne_nil _ _), h2]

lemma trim_Name (a : List Char) :
    jsTrim (chs "Name ===\n " ++ (a ++ [' '])) =
      if List.rdropWhile isWS a = [] then chs "Name ==="
      else chs "Name ===\n " ++ List.rdropWhile isWS a := by
  rw [show chs "Name ===\n " ++ (a ++ [' ']) =
      ('N' :: chs "ame ===") ++ ('\n' :: ' ' :: (a ++ [' '])) from rfl]
  rw [trim_chunk 'N' (chs "ame ===") (a ++ [' ']) (by decide) (by decide)]
  rw [List.rdropWhile_concat_pos isWS a ' ' (by decide)]
  rfl

lemma trim_Sire (b : List Char) :
    jsTrim (chs "Sire ===\n " ++ (b ++ [' '])) =
      if List.rdropWhile isWS b = [] then chs "Sire ==="
      else chs "Sire ===\n " ++ List.rdropWhile isWS b := by
  rw [show chs "Sire ===\n " ++ (b ++ [' ']) =
      ('S' :: chs "ire ===") ++ ('\n' :: ' ' :: (b ++ [' '])) from rfl]
  rw [trim_chunk 'S' (chs "ire ===") (b ++ [' ']) (by decide) (by decide)]
  rw [List.rdropWhile_concat_pos isWS b ' ' (by decide)]
  rfl

lemma trim_Dam (c : List Char) :
    jsTrim (chs "Dam ===\n " ++ c) =
      if List.rdropWhile isWS c = [] then chs "Dam ==="
      else chs "Dam ===\n " ++ List.rdropWhile isWS c := by
  rw [show chs "Dam ===\n " ++ c =
      ('D' :: chs "am ===") ++ ('\n' :: ' ' :: c) from rfl]
  rw [trim_chunk 'D' (chs "am ===") c (by decide) (by decide)]
  rfl

lemma roleRe_at_Name (A' : List Char) :
    matchFrom roleRe ⟨chs "Name ===\n " ++ A', none⟩ =
      some (⟨A'.dropWhile isWS, lastPrev (A'.takeWhile isWS) (some ' ')⟩,
        ⟨some (chs "Name"), some (chs "Name"), none⟩) := by
  have hL : chs "Name ===\n " ++ A' =
      'N' :: 'a' :: 'm' :: 'e' :: ' ' :: '=' :: '=' :: '=' :: '\n' :: ' ' :: A' :=
    rfl
  rw [hL]
  simp [matchFrom, roleRe, catRE, kwAlt, strCI, liti, lit, matchRE, repM,
    repM_hi0, repM_star_final, oalt, charCI, Caps.set, chs, lastPrev_cons,
    show isWS ' ' = true from by decide, show isWS '=' = false from by decide,
    show isWS '\n' = true from by decide]

lemma roleRe_at_Sire (A' : List Char) :
    matchFrom roleRe ⟨chs "Sire ===\n " ++ A', none⟩ =
      some (⟨A'.dropWhile isWS, lastPrev (A'.takeWhile isWS) (some ' ')⟩,
        ⟨some (chs "Sire"), some (chs "Sire"), none⟩) := by
  have hL : chs "Sire ===\n " ++ A' =
      'S' :: 'i' :: 'r' :: 'e' :: ' ' :: '=' :: '=' :: '=' :: '\n' :: ' ' :: A' :=
    rfl
  rw [hL]
  simp [matchFrom, roleRe, catRE, kwAlt, strCI, liti, lit, matchRE, repM,
    repM_hi0, repM_star_final, oalt, charCI, Caps.set, chs, lastPrev_cons,
    show isWS ' ' = true from by decide, show isWS '=' = false from by decide,
    show isWS '\n' = true from by decide]

lemma roleRe_at_Dam (A' : List Char) :
    matchFrom roleRe ⟨chs "Dam ===\n " ++ A', none⟩ =
      some (⟨A'.dropWhile isWS, lastPrev (A'.takeWhile isWS) (some ' ')⟩,
        ⟨some (chs "Dam"), some (chs "Dam"), none⟩) := by
  have hL : chs "Dam ===\n " ++ A' =
      'D' :: 'a' :: 'm' :: ' ' :: '=' :: '=' :: '=' :: '\n' :: ' ' :: A' := rfl
  rw [hL]
  simp [matchFrom, roleRe, catRE, kwAlt, strCI, liti, lit, matchRE, repM,
    repM_hi0, repM_star_final, oalt, charCI, Caps.set, chs, lastPrev_cons,
    show isWS ' ' = true from by decide, show isWS '=' = false from by decide,
    show isWS '\n' = true from by decide]

lemma search_Name (A' : List Char) :
    jsSearch roleRe (chs "Name ===\n " ++ A') =
      some (⟨chs "Name ===\n " ++ A', none⟩,
        ⟨A'.dropWhile isWS, lastPrev (A'.takeWhile isWS) (some ' ')⟩,
        ⟨some (chs "Name"), some (chs "Name"), none⟩) := by
  rw [jsSearch]
  rw [show chs "Name ===\n " ++ A' = 'N' :: (chs "ame ===\n " ++ A') from rfl]
  rw [searchAux]
  rw [show ('N' :: (chs "ame ===\n " ++ A')) = chs "Name ===\n " ++ A' from rfl,
    roleRe_at_Name A']

lemma classify_Name_pos (A' : List Char) :
    classifyChunk (chs "Name ===\n " ++ A') =
      ⟨chs "NAME", A'.dropWhile isWS⟩ := by
  rw [classifyChunk, search_Name A']
  dsimp only
  rw [jsReplaceFirst, search_Name A']
  dsimp only
  simp [constT, consumedTxt, Nat.sub_self]
  decide

lemma search_Sire (A' : List Char) :
    jsSearch roleRe (chs "Sire ===\n " ++ A') =
      some (⟨chs "Sire ===\n " ++ A', none⟩,
        ⟨A'.dropWhile isWS, lastPrev (A'.takeWhile isWS) (some ' ')⟩,
        ⟨some (chs "Sire"), some (chs "Sire"), none⟩) := by
  rw [jsSearch]
  rw [show chs "Sire ===\n " ++ A' = 'S' :: (chs "ire ===\n " ++ A') from rfl]
  rw [searchAux]
  rw [show ('S' :: (chs "ire ===\n " ++ A')) = chs "Sire ===\n " ++ A' from rfl,
    roleRe_at_Sire A']

lemma search_Dam (A' : List Char) :
    jsSearch roleRe (chs "Dam ===\n " ++ A') =
      some (⟨chs "Dam ===\n " ++ A', none⟩,
        ⟨A'.dropWhile isWS, lastPrev (A'.takeWhile isWS) (some ' ')⟩,
        ⟨some (chs "Dam"), some (chs "Dam"), none⟩) := by
  rw [jsSearch]
  rw [show chs "Dam ===\n " ++ A' = 'D' :: (chs "am ===\n " ++ A') from rfl]
  rw [searchAux]
  rw [show ('D' :: (chs "am ===\n " ++ A')) = chs "Dam ===\n " ++ A' from rfl,
    roleRe_at_Dam A']

lemma classify_Sire_pos (A' : List Char) :
    classifyChunk (chs "Sire ===\n " ++ A') =
      ⟨chs "SIRE", A'.dropWhile isWS⟩ := by
  rw [classifyChunk, search_Sire A']
  dsimp only
  rw [jsReplaceFirst, search_Sire A']
  dsimp only
  simp [constT, consumedTxt, Nat.sub_self]
  decide

lemma classify_Dam_pos (A' : List Char) :
    classifyChunk (chs "Dam ===\n " ++ A') =
      ⟨chs "DAM", A'.dropWhile isWS⟩ := by
  rw [classifyChunk, search_Dam A']
  dsimp only
  rw [jsReplaceFirst, search_Dam A']
  dsimp only
  simp [constT, consumedTxt, Nat.sub_self]
  decide

lemma classify_trim_Name (a : List Char) :
    classifyChunk (jsTrim (chs "Name ===\n " ++ (a ++ [' ']))) =
      ⟨chs "NAME", jsTrim a⟩ := by
  rw [trim_Name]
  by_cases hy : List.rdropWhile isWS a = []
  · rw [if_pos hy]
    have hdrop : List.dropWhile isWS a = [] := by
      rw [List.dropWhile_eq_nil_iff]
      intro z hz
      exact List.rdropWhile_eq_nil_iff.mp hy z hz
    rw [jsTrim_eq, hdrop]
    decide
  · rw [if_neg hy, classify_Name_pos, jsTrim_eq, dropWhile_rdropWhile_comm]

lemma classify_trim_Sire (b : List Char) :
    classifyChunk (jsTrim (chs "Sire ===\n " ++ (b ++ [' ']))) =
      ⟨chs "SIRE", jsTrim b⟩ := by
  rw [trim_Sire]
  by_cases hy : List.rdropWhile isWS b = []
  · rw [if_pos hy]
    have hdrop : List.dropWhile isWS b = [] := by
      rw [List.dropWhile_eq_nil_iff]
      intro z hz
      exact List.rdropWhile_eq_nil_iff.mp hy z hz
    rw [jsTrim_eq, hdrop]
    decide
  · rw [if_neg hy, classify_Sire_pos, jsTrim_eq, dropWhile_rdropWhile_comm]

lemma classify_trim_Dam (c : List Char) :
    classifyChunk (jsTrim (chs "Dam ===\n " ++ c)) =
      ⟨chs "DAM", jsTrim c⟩ := by
  rw [trim_Dam]
  by_cases hy : List.rdropWhile isWS c = []
  · rw [if_pos hy]
    have hdrop : List.dropWhile isWS c = [] := by
      rw [List.dropWhile_eq_nil_iff]
      intro z hz
      exact List.rdropWhile_eq_nil_iff.mp hy z hz
    rw [jsTrim_eq, hdrop]
    decide
  · rw [if_neg hy, classify_Dam_pos, jsTrim_eq, dropWhile_rdropWhile_comm]

lemma trimmed_Name_ne (a : List Char) :
    jsTrim (chs "Name ===\n " ++ (a ++ [' '])) ≠ [] := by
  rw [trim_Name]
  by_cases hy : List.rdropWhile isWS a = []
  · rw [if_pos hy]; decide
  · rw [if_neg hy]; simp [chs]

lemma trimmed_Sire_ne (b : List Char) :
    jsTrim (chs "Sire ===\n " ++ (b ++ [' '])) ≠ [] := by
  rw [trim_Sire]
  by_cases hy : List.rdropWhile isWS b = []
  · rw [if_pos hy]; decide
  · rw [if_neg hy]; simp [chs]

lemma trimmed_Dam_ne (c : List Char) :
    jsTrim (chs "Dam ===\n " ++ c) ≠ [] := by
  rw [trim_Dam]
  by_cases hy : List.rdropWhile isWS c = []
  · rw [if_pos hy]; decide
  · rw [if_neg hy]; simp [chs]

/-- C7 (amended): applied to an input of the form
`"Name: " ++ a ++ " Sire: " ++ b ++ " Dam: " ++ c`, where `a`, `b`, `c`
contain no n/s/d (either case), no `=` and no newline, the segmenter
outputs exactly three blocks, in order NAME, SIRE, DAM, whose contents are
the trimmed `a`, `b`, `c`. -/
theorem C7_segmenter_amended (a b c : List Char)
    (ha : ∀ ch ∈ a, safeCh ch = true) (hb : ∀ ch ∈ b, safeCh ch = true)
    (hc : ∀ ch ∈ c, safeCh ch = true) :
    segmentRabbits
        (chs "Name: " ++ a ++ chs " Sire: " ++ b ++ chs " Dam: " ++ c) =
      [⟨chs "NAME", jsTrim a⟩, ⟨chs "SIRE", jsTrim b⟩, ⟨chs "DAM", jsTrim c⟩] := by
  rw [segmentRabbits]
  rw [marked_eq a b c ha hb hc, split_marked a b c ha hb hc]
  have hf1 : (jsTrim (chs "Name ===\n " ++ (a ++ [' ']))).isEmpty = false := by
    rw [Bool.eq_false_iff]
    intro h
    exact trimmed_Name_ne a (List.isEmpty_iff.mp h)
  have hf2 : (jsTrim (chs "Sire ===\n " ++ (b ++ [' ']))).isEmpty = false := by
    rw [Bool.eq_false_iff]
    intro h
    exact trimmed_Sire_ne b (List.isEmpty_iff.mp h)
  have hf3 : (jsTrim (chs "Dam ===\n " ++ c)).isEmpty = false := by
    rw [Bool.eq_false_iff]
    intro h
    exact trimmed_Dam_ne c (List.isEmpty_iff.mp h)
  simp only [List.map_cons, List.map_nil, List.filter_cons, List.filter_nil,
    show jsTrim ([] : List Char) = [] from rfl, List.isEmpty_nil, hf1, hf2, hf3,
    Bool.not_true, Bool.not_false, if_true, if_false, Bool.false_eq_true,
    classify_trim_Name a, classify_trim_Sire b, classify_trim_Dam c]
  have r1 : roleRank (chs "NAME") = 0 := by decide
  have r2 : roleRank (chs "SIRE") = 1 := by decide
  have r3 : roleRank (chs "DAM") = 2 := by decide
  simp [rankSort, rankInsert, r1, r2, r3]

/-- Witness for C7: the amended theorem applied to the concrete pedigree
`"Name: Thumper Sire: Big Chief Dam: Ruby"`. -/
theorem C7_segmenter_amended_witness :
    (∀ ch ∈ chs "Thumper", safeCh ch = true) ∧
    (∀ ch ∈ chs "Big Chief", safeCh ch = true) ∧
    (∀ ch ∈ chs "Ruby", safeCh ch = true) ∧
    segmentRabbits (chs "Name: " ++ chs "Thumper" ++ chs " Sire: " ++
        chs "Big Chief" ++ chs " Dam: " ++ chs "Ruby") =
      [⟨chs "NAME", jsTrim (chs "Thumper")⟩,
        ⟨chs "SIRE", jsTrim (chs "Big Chief")⟩,
        ⟨chs "DAM", jsTrim (chs "Ruby")⟩] :=
  ⟨by decide, by decide, by decide,
    C7_segmenter_amended (chs "Thumper") (chs "Big Chief") (chs "Ruby")
      (by decide) (by decide) (by decide)⟩
